import Mathlib

/-!
Verification development for the `instance` package of the
minecraft-instance-switcher repository.

The repository's switching engine manipulates the filesystem through a
small set of `os` primitives (`Lstat`, `Stat`, `Remove`, `RemoveAll`,
`Rename`, `Symlink`, `MkdirAll`, `ReadDir`, `Readlink`, `ReadFile`,
`WriteFile`).  We give a shallow embedding: a filesystem is a finite
association list from absolute paths (lists of components) to nodes
(regular file with opaque string content, directory, or symbolic link
carrying its target path).  The primitives are translated with POSIX
semantics on Linux, the platform the repository targets first:

* `Stat` follows chains of symbolic links at the final component (with
  the kernel's 40-link bound); a dangling chain reports "not exist"
  (ENOENT, matched by `os.IsNotExist`), an exhausted bound reports a
  distinct error (ELOOP).  Intermediate path components of the three
  configured paths are taken literally: the manager's paths contain no
  intermediate links, and no operation of the package creates any.
* `Rename` moves a whole subtree and fails when the target exists with
  an incompatible kind (non-empty directory, or directory/non-directory
  mismatch), and when the target lies inside the source.
* `Remove` deletes a single entry and fails on a non-empty directory;
  `RemoveAll` deletes a subtree and does not fail.
* `Symlink` fails when the link path already exists.
* Permission failures and missing parent directories of the configured
  paths are outside the model: the tool runs as the owning user against
  paths whose parents exist.

Both generations of the package present in the repository are
translated: the older one (`SwitchInstanceV1`, `RestoreDefaultV1`) and
the current one.
-/

set_option maxRecDepth 4096

namespace MCIS

/-- An absolute filesystem path, as its list of components. -/
abbrev Path := List String

/-- `leadsTo p q` holds when `p` is an initial segment of `q`, i.e. the
object at `q` lies at or below the object at `p`. -/
def leadsTo : Path → Path → Bool
  | [], _ => true
  | _ :: _, [] => false
  | a :: as, b :: bs => a = b && leadsTo as bs

/-- A filesystem node: regular file (opaque byte content), directory, or
symbolic link carrying its (absolute) target path. -/
inductive FsNode where
  | file (data : String)
  | dir
  | symlink (target : Path)
deriving DecidableEq, Repr

instance : Inhabited FsNode := ⟨.dir⟩

/-- Whether a node is a directory (the non-following `IsDir` of a
directory entry / `Lstat` result). -/
def FsNode.isDir : FsNode → Bool
  | .dir => true
  | _ => false

/-- Whether a node is a symbolic link (`Mode()&os.ModeSymlink != 0` on an
`Lstat` result). -/
def FsNode.isSymlink : FsNode → Bool
  | .symlink _ => true
  | _ => false

/-- A filesystem: finite association list from paths to nodes.  Lookup is
first-match; all mutating operations erase every binding of the key they
write, so duplicate keys never accumulate. -/
abbrev FS := List (Path × FsNode)

/-- Non-following lookup of the node stored at a path (`os.Lstat`). -/
def lookup : FS → Path → Option FsNode
  | [], _ => none
  | e :: fs, p => if e.1 = p then some e.2 else lookup fs p

/-- Delete every binding of exactly the given path. -/
def eraseKey : FS → Path → FS
  | [], _ => []
  | e :: fs, p => if e.1 = p then eraseKey fs p else e :: eraseKey fs p

/-- `os.RemoveAll`: delete the object at `p` and everything below it.
It does not follow a symbolic link at `p` (only the link is removed) and
it succeeds when `p` is absent. -/
def removeAll : FS → Path → FS
  | [], _ => []
  | e :: fs, p => if leadsTo p e.1 then removeAll fs p else e :: removeAll fs p

/-- Whether some entry lies strictly below `p`. -/
def hasChildEntries : FS → Path → Bool
  | [], _ => false
  | e :: fs, p => (leadsTo p e.1 && !decide (e.1 = p)) || hasChildEntries fs p

/-- `os.Remove`: delete a single entry; fails (ENOENT) when absent and
(ENOTEMPTY) on a non-empty directory.  A symbolic link is removed
without being followed. -/
def remove (fs : FS) (p : Path) : Option FS :=
  match lookup fs p with
  | none => none
  | some .dir => if hasChildEntries fs p then none else some (eraseKey fs p)
  | some _ => some (eraseKey fs p)

/-- Re-root every entry at or below `src` to the corresponding path
below `dst`, leaving other entries in place. -/
def moveTree : FS → Path → Path → FS
  | [], _, _ => []
  | e :: fs, src, dst =>
    (if leadsTo src e.1 then (dst ++ e.1.drop src.length, e.2) else e) ::
      moveTree fs src dst

/-- `os.Rename`: atomically move `src` onto `dst`.  Fails when `src` is
absent, when `dst` lies inside `src`, and when `dst` exists with an
incompatible kind (directory onto non-directory or vice versa, or a
non-empty directory target). -/
def rename (fs : FS) (src dst : Path) : Option FS :=
  if src = dst then some fs
  else if leadsTo src dst then none
  else
    match lookup fs src, lookup fs dst with
    | none, _ => none
    | some _, none => some (moveTree fs src dst)
    | some sn, some dn =>
      if sn.isDir then
        if dn.isDir then
          if hasChildEntries fs dst then none
          else some (moveTree (eraseKey fs dst) src dst)
        else none
      else
        if dn.isDir then none
        else some (moveTree (eraseKey fs dst) src dst)

/-- `os.Symlink target link`: create a symbolic link; fails (EEXIST)
when the link path already exists. -/
def symlink (fs : FS) (target link : Path) : Option FS :=
  match lookup fs link with
  | some _ => none
  | none => some ((link, FsNode.symlink target) :: fs)

/-- Outcome of a following stat: the final node, ENOENT, or ELOOP. -/
inductive StatR where
  | found (n : FsNode)
  | notExist
  | errLoop
deriving DecidableEq, Repr

/-- Follow the chain of symbolic links at a path, with fuel. -/
def statResFuel : Nat → FS → Path → StatR
  | 0, _, _ => .errLoop
  | fuel + 1, fs, p =>
    match lookup fs p with
    | none => .notExist
    | some (.symlink t) => statResFuel fuel fs t
    | some n => .found n

/-- `os.Stat`: follow symbolic links (kernel bound of 40 links). -/
def statRes (fs : FS) (p : Path) : StatR :=
  statResFuel 40 fs p

/-- Resolve a path to the path of the final non-link object, with fuel. -/
def resolveFuel : Nat → FS → Path → Option Path
  | 0, _, _ => none
  | fuel + 1, fs, p =>
    match lookup fs p with
    | none => none
    | some (.symlink t) => resolveFuel fuel fs t
    | some _ => some p

/-- Worker for `mkdirAll`, structurally recursive on the reversed path
(each recursive step handles the parent path). -/
def mkdirAllAux (fs : FS) : Path → Option FS
  | [] => some fs
  | a :: rest =>
    match statRes fs ((a :: rest).reverse) with
    | .found .dir => some fs
    | .found _ => none
    | .errLoop => none
    | .notExist =>
      match lookup fs ((a :: rest).reverse) with
      | some _ => none
      | none =>
        match mkdirAllAux fs rest with
        | none => none
        | some fs' => some (((a :: rest).reverse, FsNode.dir) :: fs')

/-- `os.MkdirAll`: ensure a directory exists at `p`, creating missing
components.  Succeeds immediately when `p` already stats to a directory;
fails when it stats to anything else, on a link loop, or when the final
component exists as a dangling link (`Mkdir` then reports EEXIST); all
stats run against the filesystem as it was at the call, matching the
recursive parent-first structure of the Go implementation. -/
def mkdirAll (fs : FS) (p : Path) : Option FS :=
  mkdirAllAux fs p.reverse

/-- `strings.HasPrefix`-style test: is the second character list an
initial segment of the first? -/
def charsHaveLead : List Char → List Char → Bool
  | _, [] => true
  | [], _ :: _ => false
  | a :: as, b :: bs => a = b && charsHaveLead as bs

/-- `strings.HasPrefix s pre` over the character lists. -/
def strHasLead (s pre : String) : Bool :=
  charsHaveLead s.data pre.data

/-- `strings.HasSuffix s suf` over the character lists. -/
def strHasTail (s suf : String) : Bool :=
  charsHaveLead s.data.reverse suf.data.reverse

/-- Lexicographic byte order on character lists, the order of Go string
comparison. -/
def charsLt : List Char → List Char → Bool
  | [], [] => false
  | [], _ :: _ => true
  | _ :: _, [] => false
  | a :: as, b :: bs => if a = b then charsLt as bs else decide (a < b)

/-- Go's `<` on strings. -/
def strLt (a b : String) : Bool :=
  charsLt a.data b.data

/-- Insert a string into an already ascending list (`sort.Strings` /
`os.ReadDir` name ordering). -/
def insertStr (a : String) : List String → List String
  | [] => [a]
  | b :: bs => if strLt a b then a :: b :: bs else b :: insertStr a bs

/-- Sort strings ascending (insertion sort). -/
def sortStrs : List String → List String
  | [] => []
  | a :: as => insertStr a (sortStrs as)

/-- Drop later duplicates, keeping first occurrences. -/
def dedupStrs : List String → List String
  | [] => []
  | a :: as => a :: (dedupStrs as).filter (fun b => ¬ b = a)

/-- `filepath.Base` of a path stored as components: its last component,
or `"/"` for the root. -/
def pathBase (p : Path) : String :=
  match p.getLast? with
  | some s => s
  | none => "/"

/-- The raw (unsorted) child names of a directory path: last components
of the entries directly below it. -/
def childRaw : FS → Path → List String
  | [], _ => []
  | e :: fs, p =>
    if e.1.dropLast = p ∧ ¬ e.1 = [] then pathBase e.1 :: childRaw fs p
    else childRaw fs p

/-- The names of the immediate children of a directory path, sorted and
without duplicates, as `os.ReadDir` yields them. -/
def childNames (fs : FS) (p : Path) : List String :=
  sortStrs (dedupStrs (childRaw fs p))

/-- `os.ReadDir`: follow links at the path, then list the child entries
of the resulting directory in name order together with their
(non-following) node kinds.  `none` is a read error (ENOENT/ENOTDIR or a
link loop). -/
def readDirEntries (fs : FS) (p : Path) : Option (List (String × FsNode)) :=
  match resolveFuel 40 fs p with
  | none => none
  | some q =>
    match lookup fs q with
    | some .dir =>
      some ((childNames fs q).filterMap (fun nm =>
        (lookup fs (q ++ [nm])).map (fun n => (nm, n))))
    | _ => none

/-- `countJarFiles`: non-directory entries whose name ends in `.jar`;
an unreadable directory counts as zero. -/
def countJarFiles (fs : FS) (dir : Path) : Nat :=
  match readDirEntries fs dir with
  | none => 0
  | some es => (es.filter (fun e => !e.2.isDir && strHasTail e.1 ".jar")).length

/-- `countFiles`: non-directory entries; an unreadable directory counts
as zero. -/
def countFiles (fs : FS) (dir : Path) : Nat :=
  match readDirEntries fs dir with
  | none => 0
  | some es => (es.filter (fun e => !e.2.isDir)).length

/-- `countDirectories`: directory entries; an unreadable directory
counts as zero. -/
def countDirectories (fs : FS) (dir : Path) : Nat :=
  match readDirEntries fs dir with
  | none => 0
  | some es => (es.filter (fun e => e.2.isDir)).length

/-- `strings.Contains sub s`: does `sub` occur inside `s`? -/
def strContains (s sub : String) : Bool :=
  go s.data sub.data
where
  go : List Char → List Char → Bool
    | _, [] => true
    | [], _ :: _ => false
    | a :: as, sub => charsHaveLead (a :: as) sub || go as sub

/-- Read a regular file, following symbolic links (`os.ReadFile`). -/
def readFile (fs : FS) (p : Path) : Option String :=
  match resolveFuel 40 fs p with
  | none => none
  | some q =>
    match lookup fs q with
    | some (.file d) => some d
    | _ => none

/-- Write a regular file (`os.WriteFile`), creating or truncating.
Follows a symbolic link at the path; fails on a directory and on a link
loop. -/
def writeFileFuel : Nat → FS → Path → String → Option FS
  | 0, _, _, _ => none
  | fuel + 1, fs, p, d =>
    match lookup fs p with
    | some (.symlink t) => writeFileFuel fuel fs t d
    | some .dir => none
    | _ => some ((p, FsNode.file d) :: eraseKey fs p)

/-- `os.WriteFile` with the kernel's link bound. -/
def writeFile (fs : FS) (p : Path) (d : String) : Option FS :=
  writeFileFuel 40 fs p d

/-- Strict lexicographic order on paths: the depth-first pre-order in
which `filepath.WalkDir` visits a tree (parents before children,
siblings in name order). -/
def pathLt : Path → Path → Bool
  | [], [] => false
  | [], _ :: _ => true
  | _ :: _, [] => false
  | a :: as, b :: bs => if a = b then pathLt as bs else strLt a b

/-- Insert into a walk-ordered list of relative entries. -/
def insertWalk (a : Path × FsNode) : List (Path × FsNode) → List (Path × FsNode)
  | [] => [a]
  | b :: bs => if pathLt a.1 b.1 then a :: b :: bs else b :: insertWalk a bs

/-- Sort relative entries into `filepath.WalkDir` visiting order. -/
def sortWalk : List (Path × FsNode) → List (Path × FsNode)
  | [] => []
  | a :: as => insertWalk a (sortWalk as)

/-- The subtree of `fs` rooted at `src`, as relative paths, in the order
`filepath.WalkDir` visits it. -/
def walkEntries (fs : FS) (src : Path) : List (Path × FsNode) :=
  sortWalk (fs.filterMap (fun e =>
    if leadsTo src e.1 then some (e.1.drop src.length, e.2) else none))

/-- One step of `copyDir`'s walk callback: a directory is materialised
with `MkdirAll`; a non-directory whose relative path contains `.git` or
`.DS_Store` is skipped; any other non-directory is copied by
`ReadFile`/`WriteFile`. -/
def copyEntryStep (srcRoot dstRoot : Path) (fs : FS) (e : Path × FsNode) : Option FS :=
  let rel := String.intercalate "/" e.1
  let dstPath := dstRoot ++ e.1
  if e.2.isDir then mkdirAll fs dstPath
  else if strContains rel ".git" || strContains rel ".DS_Store" then some fs
  else
    match readFile fs (srcRoot ++ e.1) with
    | none => none
    | some d => writeFile fs dstPath d

/-- Run the walk callback over a list of relative entries, stopping at
the first error as `filepath.WalkDir` does. -/
def copyList (srcRoot dstRoot : Path) : FS → List (Path × FsNode) → Option FS
  | fs, [] => some fs
  | fs, e :: es =>
    match copyEntryStep srcRoot dstRoot fs e with
    | none => none
    | some fs' => copyList srcRoot dstRoot fs' es

/-- `copyDir src dst`: walk the tree under `src` in pre-order and copy
it below `dst`.  Fails when `src` does not exist (the walk's root stat
fails). -/
def copyDir (fs : FS) (src dst : Path) : Option FS :=
  if lookup fs src = none then none
  else copyList src dst fs (walkEntries fs src)

/-- The typed failures of the package: each constructor corresponds to
one `fmt.Errorf` site.  `wrapped` carries the message of a wrapped
filesystem failure. -/
inductive Err where
  | emptyName
  | alreadyExists (name : String)
  | notFound (name : String)
  | activeInstance (name : String)
  | unknownKey (key : String)
  | wrapped (site : String)
deriving DecidableEq, Repr

instance {ε α : Type} [DecidableEq ε] [DecidableEq α] : DecidableEq (Except ε α) :=
  fun x y =>
    match x, y with
    | .ok a, .ok b =>
      if h : a = b then .isTrue (by rw [h])
      else .isFalse (by intro hc; injection hc; contradiction)
    | .error a, .error b =>
      if h : a = b then .isTrue (by rw [h])
      else .isFalse (by intro hc; injection hc; contradiction)
    | .ok _, .error _ => .isFalse (by intro hc; exact Except.noConfusion hc)
    | .error _, .ok _ => .isFalse (by intro hc; exact Except.noConfusion hc)

/-- The fixed paths of a `Manager`: instances root, live Minecraft
directory, backup slot.  (The `HomeDir`/`AppDir`/`ConfigFile` fields of
the Go struct are not consulted by the instance operations and are
modelled with the configuration layer below.) -/
structure Manager where
  InstancesPath : Path
  MinecraftPath : Path
  BackupPath : Path
deriving DecidableEq, Repr

/-- The three configured paths are pairwise non-overlapping: none lies
at or below another.  This is how every supported configuration lays
them out (by default they live in three distinct directories). -/
def Manager.Sep (m : Manager) : Prop :=
  leadsTo m.MinecraftPath m.BackupPath = false ∧
  leadsTo m.BackupPath m.MinecraftPath = false ∧
  leadsTo m.InstancesPath m.MinecraftPath = false ∧
  leadsTo m.MinecraftPath m.InstancesPath = false ∧
  leadsTo m.InstancesPath m.BackupPath = false ∧
  leadsTo m.BackupPath m.InstancesPath = false

instance (m : Manager) : Decidable m.Sep := by
  unfold Manager.Sep; infer_instance

/-- One listed instance: name, path, derived counts, active flag. -/
structure Instance where
  Name : String
  Path : Path
  ModCount : Nat
  ConfigCount : Nat
  SaveCount : Nat
  IsActive : Bool
deriving DecidableEq, Repr

/-- `Manager.GetActiveInstance`: non-following stat of the live path;
the base name of the link target when it is a symbolic link, the
sentinel `"default"` otherwise.  A pure query: it is a function of the
filesystem and performs no mutating call. -/
def Manager.GetActiveInstance (m : Manager) (fs : FS) : String :=
  match lookup fs m.MinecraftPath with
  | some (.symlink target) => pathBase target
  | _ => "default"

/-- The fixed subdirectories `Manager.CreateInstance` materialises. -/
def essentialDirs : List String :=
  ["mods", "config", "saves", "resourcepacks", "shaderpacks"]

/-- The `for _, dir := range essentialDirs` loop of
`Manager.CreateInstance`: `MkdirAll` each fixed subdirectory, stopping
at the first failure. -/
def makeEssentialDirs (instancePath : Path) : FS → List String → FS × Except Err Unit
  | fs, [] => (fs, .ok ())
  | fs, d :: ds =>
    match mkdirAll fs (instancePath ++ [d]) with
    | none => (fs, .error (.wrapped ("failed to create directory " ++ d)))
    | some fs' => makeEssentialDirs instancePath fs' ds

/-- `Manager.CreateInstance` (current generation): refuse an empty name
and an existing path; ensure the instances root and the instance
directory; seed from the live path (resolving it first when it is a
symbolic link); then materialise the five fixed subdirectories. -/
def Manager.CreateInstance (m : Manager) (name : String) (fs : FS) : FS × Except Err Unit :=
  if name = "" then (fs, .error .emptyName)
  else
    match statRes fs (m.InstancesPath ++ [name]) with
    | .found _ => (fs, .error (.alreadyExists name))
    | _ =>
      match mkdirAll fs m.InstancesPath with
      | none => (fs, .error (.wrapped "failed to create instances directory"))
      | some fs₁ =>
        match mkdirAll fs₁ (m.InstancesPath ++ [name]) with
        | none => (fs₁, .error (.wrapped "failed to create instance directory"))
        | some fs₂ =>
          match (match lookup fs₂ m.MinecraftPath with
            | some (.symlink target) =>
              match copyDir fs₂ target (m.InstancesPath ++ [name]) with
              | none => (fs₂, .error (.wrapped "failed to copy minecraft directory"))
              | some fs₃ => (fs₃, .ok ())
            | some _ =>
              match copyDir fs₂ m.MinecraftPath (m.InstancesPath ++ [name]) with
              | none => (fs₂, .error (.wrapped "failed to copy minecraft directory"))
              | some fs₃ => (fs₃, .ok ())
            | none => (fs₂, .ok ()) : FS × Except Err Unit) with
          | (fs₃, .error e) => (fs₃, .error e)
          | (fs₃, .ok ()) => makeEssentialDirs (m.InstancesPath ++ [name]) fs₃ essentialDirs

/-- `Manager.SwitchInstance` (current generation): refuse an empty name
and a missing instance; displace the live path (delete the old backup
and rename a real live directory onto the backup slot, or just remove a
live symbolic link); then link the live path to the instance.  On an
error the partially mutated state is kept — the operation is not
transactional. -/
def Manager.SwitchInstance (m : Manager) (name : String) (fs : FS) : FS × Except Err Unit :=
  if name = "" then (fs, .error .emptyName)
  else
    if statRes fs (m.InstancesPath ++ [name]) = .notExist then (fs, .error (.notFound name))
    else
      match lookup fs m.MinecraftPath with
      | some n =>
        if n.isSymlink = false then
          let fs₁ := removeAll fs m.BackupPath
          match rename fs₁ m.MinecraftPath m.BackupPath with
          | none => (fs₁, .error (.wrapped "failed to backup minecraft directory"))
          | some fs₂ =>
            match symlink fs₂ (m.InstancesPath ++ [name]) m.MinecraftPath with
            | none => (fs₂, .error (.wrapped "failed to create symlink"))
            | some fs₃ => (fs₃, .ok ())
        else
          match remove fs m.MinecraftPath with
          | none => (fs, .error (.wrapped "failed to remove existing symlink"))
          | some fs₁ =>
            match symlink fs₁ (m.InstancesPath ++ [name]) m.MinecraftPath with
            | none => (fs₁, .error (.wrapped "failed to create symlink"))
            | some fs₂ => (fs₂, .ok ())
      | none =>
        match symlink fs (m.InstancesPath ++ [name]) m.MinecraftPath with
        | none => (fs, .error (.wrapped "failed to create symlink"))
        | some fs₁ => (fs₁, .ok ())

/-- `Manager.RestoreDefault` (current generation): remove the live path
when it is a symbolic link, then rename the backup slot onto it when the
backup slot stats successfully. -/
def Manager.RestoreDefault (m : Manager) (fs : FS) : FS × Except Err Unit :=
  match lookup fs m.MinecraftPath with
  | some (.symlink _) =>
    match remove fs m.MinecraftPath with
    | none => (fs, .error (.wrapped "failed to remove symlink"))
    | some fs₁ =>
      match statRes fs₁ m.BackupPath with
      | .found _ =>
        match rename fs₁ m.BackupPath m.MinecraftPath with
        | none => (fs₁, .error (.wrapped "failed to restore backup"))
        | some fs₂ => (fs₂, .ok ())
      | _ => (fs₁, .ok ())
  | _ =>
    match statRes fs m.BackupPath with
    | .found _ =>
      match rename fs m.BackupPath m.MinecraftPath with
      | none => (fs, .error (.wrapped "failed to restore backup"))
      | some fs₁ => (fs₁, .ok ())
    | _ => (fs, .ok ())

/-- Insert into a list of instances kept ascending by name
(`sort.Slice` with a name comparison). -/
def insertInstance (a : Instance) : List Instance → List Instance
  | [] => [a]
  | b :: bs => if strLt a.Name b.Name then a :: b :: bs else b :: insertInstance a bs

/-- Sort instances by name, as the `sort.Slice` call does. -/
def sortInstances : List Instance → List Instance
  | [] => []
  | a :: as => insertInstance a (sortInstances as)

/-- `Manager.ListInstances`: empty when the instances root does not
exist; otherwise every directory child of the root, annotated with
derived counts and the active flag, in name order. -/
def Manager.ListInstances (m : Manager) (fs : FS) : Except Err (List Instance) :=
  if statRes fs m.InstancesPath = .notExist then .ok []
  else
    match readDirEntries fs m.InstancesPath with
    | none => .error (.wrapped "failed to read instances directory")
    | some entries =>
      .ok (sortInstances (entries.filterMap (fun e =>
        if e.2.isDir then
          some { Name := e.1
                 Path := m.InstancesPath ++ [e.1]
                 ModCount := countJarFiles fs (m.InstancesPath ++ [e.1] ++ ["mods"])
                 ConfigCount := countFiles fs (m.InstancesPath ++ [e.1] ++ ["config"])
                 SaveCount := countDirectories fs (m.InstancesPath ++ [e.1] ++ ["saves"])
                 IsActive := decide (e.1 = m.GetActiveInstance fs) }
        else none)))

/-- `Manager.DeleteInstance`: refuse an empty name, a missing instance,
and the active instance; otherwise remove the instance tree. -/
def Manager.DeleteInstance (m : Manager) (name : String) (fs : FS) : FS × Except Err Unit :=
  if name = "" then (fs, .error .emptyName)
  else
    if statRes fs (m.InstancesPath ++ [name]) = .notExist then (fs, .error (.notFound name))
    else if m.GetActiveInstance fs = name then (fs, .error (.activeInstance name))
    else (removeAll fs (m.InstancesPath ++ [name]), .ok ())

/-- `Manager.SwitchInstance` of the older generation of the package
(the first `package instance` block in the repository).  Its body is the
same statement sequence as the current generation's. -/
def Manager.SwitchInstanceV1 (m : Manager) (name : String) (fs : FS) : FS × Except Err Unit :=
  if name = "" then (fs, .error .emptyName)
  else
    if statRes fs (m.InstancesPath ++ [name]) = .notExist then (fs, .error (.notFound name))
    else
      match lookup fs m.MinecraftPath with
      | some n =>
        if n.isSymlink = false then
          let fs₁ := removeAll fs m.BackupPath
          match rename fs₁ m.MinecraftPath m.BackupPath with
          | none => (fs₁, .error (.wrapped "failed to backup minecraft directory"))
          | some fs₂ =>
            match symlink fs₂ (m.InstancesPath ++ [name]) m.MinecraftPath with
            | none => (fs₂, .error (.wrapped "failed to create symlink"))
            | some fs₃ => (fs₃, .ok ())
        else
          match remove fs m.MinecraftPath with
          | none => (fs, .error (.wrapped "failed to remove existing symlink"))
          | some fs₁ =>
            match symlink fs₁ (m.InstancesPath ++ [name]) m.MinecraftPath with
            | none => (fs₁, .error (.wrapped "failed to create symlink"))
            | some fs₂ => (fs₂, .ok ())
      | none =>
        match symlink fs (m.InstancesPath ++ [name]) m.MinecraftPath with
        | none => (fs, .error (.wrapped "failed to create symlink"))
        | some fs₁ => (fs₁, .ok ())

/-- `Manager.RestoreDefault` of the older generation of the package:
the same statement sequence as the current generation's. -/
def Manager.RestoreDefaultV1 (m : Manager) (fs : FS) : FS × Except Err Unit :=
  match lookup fs m.MinecraftPath with
  | some (.symlink _) =>
    match remove fs m.MinecraftPath with
    | none => (fs, .error (.wrapped "failed to remove symlink"))
    | some fs₁ =>
      match statRes fs₁ m.BackupPath with
      | .found _ =>
        match rename fs₁ m.BackupPath m.MinecraftPath with
        | none => (fs₁, .error (.wrapped "failed to restore backup"))
        | some fs₂ => (fs₂, .ok ())
      | _ => (fs₁, .ok ())
  | _ =>
    match statRes fs m.BackupPath with
    | .found _ =>
      match rename fs m.BackupPath m.MinecraftPath with
      | none => (fs, .error (.wrapped "failed to restore backup"))
      | some fs₁ => (fs₁, .ok ())
    | _ => (fs, .ok ())

/-- A mutating filesystem call, for comparing the call sequences the two
generations of the switching engine issue.  (Read-only calls — `Lstat`,
`Stat`, `Readlink` — mutate nothing and are not recorded.) -/
inductive FsOp where
  | removeAllOp (p : Path)
  | renameOp (src dst : Path)
  | removeOp (p : Path)
  | symlinkOp (target link : Path)
deriving DecidableEq, Repr

/-- The sequence of mutating filesystem calls the current generation's
`SwitchInstance` issues (attempted calls included; the sequence stops
after a failing call, where the function returns). -/
def Manager.SwitchInstanceOps (m : Manager) (name : String) (fs : FS) : List FsOp :=
  if name = "" then []
  else
    if statRes fs (m.InstancesPath ++ [name]) = .notExist then []
    else
      match lookup fs m.MinecraftPath with
      | some n =>
        if n.isSymlink = false then
          let fs₁ := removeAll fs m.BackupPath
          match rename fs₁ m.MinecraftPath m.BackupPath with
          | none => [.removeAllOp m.BackupPath, .renameOp m.MinecraftPath m.BackupPath]
          | some _ => [.removeAllOp m.BackupPath, .renameOp m.MinecraftPath m.BackupPath,
                       .symlinkOp (m.InstancesPath ++ [name]) m.MinecraftPath]
        else
          match remove fs m.MinecraftPath with
          | none => [.removeOp m.MinecraftPath]
          | some _ => [.removeOp m.MinecraftPath, .symlinkOp (m.InstancesPath ++ [name]) m.MinecraftPath]
      | none => [.symlinkOp (m.InstancesPath ++ [name]) m.MinecraftPath]

/-- The sequence of mutating filesystem calls the older generation's
`SwitchInstance` issues. -/
def Manager.SwitchInstanceOpsV1 (m : Manager) (name : String) (fs : FS) : List FsOp :=
  if name = "" then []
  else
    if statRes fs (m.InstancesPath ++ [name]) = .notExist then []
    else
      match lookup fs m.MinecraftPath with
      | some n =>
        if n.isSymlink = false then
          let fs₁ := removeAll fs m.BackupPath
          match rename fs₁ m.MinecraftPath m.BackupPath with
          | none => [.removeAllOp m.BackupPath, .renameOp m.MinecraftPath m.BackupPath]
          | some _ => [.removeAllOp m.BackupPath, .renameOp m.MinecraftPath m.BackupPath,
                       .symlinkOp (m.InstancesPath ++ [name]) m.MinecraftPath]
        else
          match remove fs m.MinecraftPath with
          | none => [.removeOp m.MinecraftPath]
          | some _ => [.removeOp m.MinecraftPath, .symlinkOp (m.InstancesPath ++ [name]) m.MinecraftPath]
      | none => [.symlinkOp (m.InstancesPath ++ [name]) m.MinecraftPath]

/-- The sequence of mutating filesystem calls the current generation's
`RestoreDefault` issues. -/
def Manager.RestoreDefaultOps (m : Manager) (fs : FS) : List FsOp :=
  match lookup fs m.MinecraftPath with
  | some (.symlink _) =>
    match remove fs m.MinecraftPath with
    | none => [.removeOp m.MinecraftPath]
    | some fs₁ =>
      match statRes fs₁ m.BackupPath with
      | .found _ => [.removeOp m.MinecraftPath, .renameOp m.BackupPath m.MinecraftPath]
      | _ => [.removeOp m.MinecraftPath]
  | _ =>
    match statRes fs m.BackupPath with
    | .found _ => [.renameOp m.BackupPath m.MinecraftPath]
    | _ => []

/-- The sequence of mutating filesystem calls the older generation's
`RestoreDefault` issues. -/
def Manager.RestoreDefaultOpsV1 (m : Manager) (fs : FS) : List FsOp :=
  match lookup fs m.MinecraftPath with
  | some (.symlink _) =>
    match remove fs m.MinecraftPath with
    | none => [.removeOp m.MinecraftPath]
    | some fs₁ =>
      match statRes fs₁ m.BackupPath with
      | .found _ => [.removeOp m.MinecraftPath, .renameOp m.BackupPath m.MinecraftPath]
      | _ => [.removeOp m.MinecraftPath]
  | _ =>
    match statRes fs m.BackupPath with
    | .found _ => [.renameOp m.BackupPath m.MinecraftPath]
    | _ => []

/-- The persisted configuration record (`config.json`): three string
path fields. -/
structure Config where
  InstancesPath : String
  MinecraftPath : String
  BackupPath : String
deriving DecidableEq, Repr

/-- The configuration-owning fields of the Go `Manager`: the home
directory and the three path fields as raw strings, as
`Manager.UpdateConfig` reads and writes them. -/
structure CfgManager where
  HomeDir : String
  InstancesPath : String
  MinecraftPath : String
  BackupPath : String
deriving DecidableEq, Repr

/-- `filepath.Join` of a base path and a relative remainder, at the
precision `expandPath` needs (no `..` segments arise there). -/
def joinPath (a b : String) : String :=
  if b = "" then a
  else if strHasLead b "/" then a ++ b
  else a ++ "/" ++ b

/-- `expandPath`: replace a leading `~` by the home directory. -/
def expandPath (home p : String) : String :=
  if p = "" then p
  else if strHasLead p "~" then joinPath home (String.mk (p.data.drop 1))
  else p

/-- `Manager.saveConfig`: the record written to the configuration file,
taken from the manager's current fields. -/
def saveConfig (m : CfgManager) : Config :=
  { InstancesPath := m.InstancesPath
    MinecraftPath := m.MinecraftPath
    BackupPath := m.BackupPath }

/-- A side effect `Manager.UpdateConfig` performs, in order: creating
the instances directory, or persisting the configuration file. -/
inductive CfgEffect where
  | mkdirInstances (path : String)
  | writeConfigFile (cfg : Config)
deriving DecidableEq, Repr

/-- `Manager.UpdateConfig`: expand a leading `~` in the value, assign
the field selected by the key (three recognized keys, each with two
synonyms), ensure the instances directory exists when the instances path
changed, and persist; any other key is refused with no mutation. -/
def UpdateConfig (m : CfgManager) (key value : String) : CfgManager × List CfgEffect × Except Err Unit :=
  if key = "minecraft-path" ∨ key = "minecraft-dir" ∨ key = "minecraft" then
    ({ m with MinecraftPath := expandPath m.HomeDir value },
      [.writeConfigFile (saveConfig { m with MinecraftPath := expandPath m.HomeDir value })],
      .ok ())
  else if key = "instances-path" ∨ key = "instances-dir" ∨ key = "instances" then
    ({ m with InstancesPath := expandPath m.HomeDir value },
      [.mkdirInstances (expandPath m.HomeDir value),
       .writeConfigFile (saveConfig { m with InstancesPath := expandPath m.HomeDir value })],
      .ok ())
  else if key = "backup-path" ∨ key = "backup-dir" ∨ key = "backup" then
    ({ m with BackupPath := expandPath m.HomeDir value },
      [.writeConfigFile (saveConfig { m with BackupPath := expandPath m.HomeDir value })],
      .ok ())
  else (m, [], .error (.unknownKey key))

/-- The contents at and below a path, re-rooted there: the observation
under which "the live path holds exactly the displaced directory" is
byte-for-byte directory equality. -/
def subtree : FS → Path → List (Path × FsNode)
  | [], _ => []
  | e :: fs, p =>
    if leadsTo p e.1 then (e.1.drop p.length, e.2) :: subtree fs p
    else subtree fs p

/-! ### Structural lemmas about the filesystem model -/

@[simp]
theorem leadsTo_nil (q : Path) : leadsTo [] q = true := rfl

@[simp]
theorem leadsTo_refl (p : Path) : leadsTo p p = true := by
  induction p with
  | nil => rfl
  | cons a as ih => simp [leadsTo, ih]

theorem leadsTo_iff (p q : Path) : leadsTo p q = true ↔ ∃ r, q = p ++ r := by
  induction p generalizing q with
  | nil => simp [leadsTo]
  | cons a as ih =>
    cases q with
    | nil => simp [leadsTo]
    | cons b bs =>
      simp only [leadsTo, Bool.and_eq_true, decide_eq_true_eq, ih]
      constructor
      · rintro ⟨rfl, r, rfl⟩; exact ⟨r, rfl⟩
      · rintro ⟨r, hr⟩
        injection hr with h1 h2
        exact ⟨h1.symm, r, h2⟩

@[simp]
theorem leadsTo_append (p r : Path) : leadsTo p (p ++ r) = true :=
  (leadsTo_iff p (p ++ r)).2 ⟨r, rfl⟩

theorem leadsTo_trans {p q r : Path} (h1 : leadsTo p q = true)
    (h2 : leadsTo q r = true) : leadsTo p r = true := by
  obtain ⟨a, rfl⟩ := (leadsTo_iff p q).1 h1
  obtain ⟨b, rfl⟩ := (leadsTo_iff _ _).1 h2
  rw [List.append_assoc]
  exact leadsTo_append _ _

theorem leadsTo_length {p q : Path} (h : leadsTo p q = true) :
    p.length ≤ q.length := by
  obtain ⟨r, rfl⟩ := (leadsTo_iff p q).1 h
  simp

theorem leadsTo_antisymm {p q : Path} (h1 : leadsTo p q = true)
    (h2 : leadsTo q p = true) : p = q := by
  obtain ⟨a, rfl⟩ := (leadsTo_iff p q).1 h1
  have hl := leadsTo_length h2
  simp only [List.length_append] at hl
  have : a = [] := List.eq_nil_of_length_eq_zero (by omega)
  subst this
  simp

theorem leadsTo_comparable {p r q : Path} (h1 : leadsTo p q = true)
    (h2 : leadsTo r q = true) :
    leadsTo p r = true ∨ leadsTo r p = true := by
  induction q generalizing p r with
  | nil =>
    obtain ⟨a, ha⟩ := (leadsTo_iff p _).1 h1
    obtain ⟨b, hb⟩ := (leadsTo_iff r _).1 h2
    simp_all [List.append_eq_nil]
  | cons c cs ih =>
    cases p with
    | nil => left; rfl
    | cons a as =>
      cases r with
      | nil => right; rfl
      | cons b bs =>
        simp only [leadsTo, Bool.and_eq_true, decide_eq_true_eq] at h1 h2 ⊢
        obtain ⟨rfl, h1⟩ := h1
        obtain ⟨rfl, h2⟩ := h2
        rcases ih h1 h2 with h | h
        · exact Or.inl ⟨rfl, h⟩
        · exact Or.inr ⟨rfl, h⟩

theorem leadsTo_eq_append {p q : Path} (h : leadsTo p q = true) :
    p ++ q.drop p.length = q := by
  obtain ⟨r, rfl⟩ := (leadsTo_iff p q).1 h
  simp [List.drop_left]

theorem leadsTo_dropLast (p : Path) : leadsTo p.dropLast p = true := by
  cases p using List.reverseRecOn with
  | nil => rfl
  | append_singleton as a =>
    rw [List.dropLast_concat]
    exact leadsTo_append as [a]

@[simp]
theorem pathBase_concat (p : Path) (n : String) : pathBase (p ++ [n]) = n := by
  simp [pathBase, List.getLast?_concat]

@[simp]
theorem lookup_cons (e : Path × FsNode) (fs : FS) (p : Path) :
    lookup (e :: fs) p = if e.1 = p then some e.2 else lookup fs p := rfl

theorem lookup_none_iff (fs : FS) (p : Path) :
    lookup fs p = none ↔ ∀ e ∈ fs, ¬ e.1 = p := by
  induction fs with
  | nil => simp [lookup]
  | cons e fs ih =>
    rw [lookup_cons]
    by_cases h : e.1 = p
    · simp [h]
    · simp [h, ih]

theorem lookup_eraseKey (fs : FS) (k p : Path) :
    lookup (eraseKey fs k) p = if p = k then none else lookup fs p := by
  induction fs with
  | nil => simp [eraseKey, lookup]
  | cons e fs ih =>
    rw [eraseKey]
    by_cases hek : e.1 = k
    · by_cases hpk : p = k
      · subst hpk
        simp [hek, ih]
      · have hkp : ¬ k = p := fun h => hpk h.symm
        simp [hek, hpk, hkp, ih]
    · by_cases hep : e.1 = p
      · subst hep
        simp [hek, ih]
      · simp [hek, hep, ih]

theorem eraseKey_of_lookup_none {fs : FS} {k : Path} (h : lookup fs k = none) :
    eraseKey fs k = fs := by
  induction fs with
  | nil => rfl
  | cons e fs ih =>
    rw [lookup_cons] at h
    by_cases hek : e.1 = k
    · simp [hek] at h
    · rw [eraseKey, if_neg hek, ih (by simpa [hek] using h)]

theorem mem_eraseKey {fs : FS} {k : Path} {e : Path × FsNode}
    (h : e ∈ eraseKey fs k) : e ∈ fs ∧ ¬ e.1 = k := by
  induction fs with
  | nil => simp [eraseKey] at h
  | cons e' fs ih =>
    rw [eraseKey] at h
    by_cases hek : e'.1 = k
    · rw [if_pos hek] at h
      have := ih h
      exact ⟨List.mem_cons_of_mem _ this.1, this.2⟩
    · rw [if_neg hek] at h
      rcases List.mem_cons.1 h with rfl | h
      · exact ⟨List.mem_cons_self _ _, hek⟩
      · have := ih h
        exact ⟨List.mem_cons_of_mem _ this.1, this.2⟩

theorem lookup_removeAll (fs : FS) (r p : Path) :
    lookup (removeAll fs r) p =
      if leadsTo r p = true then none else lookup fs p := by
  induction fs with
  | nil => simp [removeAll, lookup]
  | cons e fs ih =>
    rw [removeAll]
    by_cases hr : leadsTo r e.1 = true
    · by_cases hp : leadsTo r p = true
      · simp [hr, hp, ih]
      · have : ¬ e.1 = p := fun h => hp (h ▸ hr)
        simp [hr, hp, this, ih]
    · by_cases hep : e.1 = p
      · subst hep
        simp [hr, ih, hr]
      · simp [hr, hep, ih]

theorem mem_removeAll {fs : FS} {r : Path} {e : Path × FsNode}
    (h : e ∈ removeAll fs r) : e ∈ fs ∧ leadsTo r e.1 = false := by
  induction fs with
  | nil => simp [removeAll] at h
  | cons e' fs ih =>
    rw [removeAll] at h
    by_cases hr : leadsTo r e'.1 = true
    · rw [if_pos hr] at h
      have := ih h
      exact ⟨List.mem_cons_of_mem _ this.1, this.2⟩
    · rw [if_neg hr] at h
      rcases List.mem_cons.1 h with rfl | h
      · exact ⟨List.mem_cons_self _ _, by simpa using hr⟩
      · have := ih h
        exact ⟨List.mem_cons_of_mem _ this.1, this.2⟩

theorem lookup_moveTree_gone {fs : FS} {src dst q : Path}
    (hq : leadsTo src q = true) (hdq : leadsTo dst q = false) :
    lookup (moveTree fs src dst) q = none := by
  induction fs with
  | nil => simp [moveTree, lookup]
  | cons e fs ih =>
    rw [moveTree]
    by_cases hs : leadsTo src e.1 = true
    · have hne : ¬ dst ++ e.1.drop src.length = q := by
        intro h
        rw [← h] at hdq
        simp at hdq
      simp [hs, hne, ih]
    · have hne : ¬ e.1 = q := fun h => hs (h ▸ hq)
      simp [hs, hne, ih]

theorem lookup_moveTree_outside {fs : FS} {src dst q : Path}
    (hq : leadsTo src q = false) (hdq : leadsTo dst q = false) :
    lookup (moveTree fs src dst) q = lookup fs q := by
  induction fs with
  | nil => simp [moveTree]
  | cons e fs ih =>
    rw [moveTree]
    by_cases hs : leadsTo src e.1 = true
    · have hne : ¬ dst ++ e.1.drop src.length = q := by
        intro h
        rw [← h] at hdq
        simp at hdq
      have hne2 : ¬ e.1 = q := by
        intro h
        rw [h] at hs
        simp [hs] at hq
      simp [hs, hne, hne2, ih]
    · simp [hs, ih]

theorem lookup_moveTree_dstRel {fs : FS} {src dst : Path}
    (hmem : ∀ e ∈ fs, leadsTo dst e.1 = false) (r : Path) :
    lookup (moveTree fs src dst) (dst ++ r) = lookup fs (src ++ r) := by
  induction fs with
  | nil => simp [moveTree, lookup]
  | cons e fs ih =>
    have hd : leadsTo dst e.1 = false := hmem e (List.mem_cons_self _ _)
    have htail : ∀ e' ∈ fs, leadsTo dst e'.1 = false := fun e' he' =>
      hmem e' (List.mem_cons_of_mem _ he')
    rw [moveTree]
    by_cases hs : leadsTo src e.1 = true
    · have heq : src ++ e.1.drop src.length = e.1 := leadsTo_eq_append hs
      have hiff : (dst ++ e.1.drop src.length = dst ++ r) ↔ (e.1 = src ++ r) := by
        constructor
        · intro h
          have h2 := List.append_cancel_left h
          rw [← heq, h2]
        · intro h
          rw [← heq] at h
          have h2 := List.append_cancel_left h
          rw [h2]
      by_cases h : e.1 = src ++ r
      · simp [hs, hiff.2 h, h]
      · have hne : ¬ dst ++ e.1.drop src.length = dst ++ r := fun hh => h (hiff.1 hh)
        simp [hs, hne, h, ih htail]
    · have hne : ¬ e.1 = dst ++ r := by
        intro h
        rw [h] at hd
        simp at hd
      have hne2 : ¬ e.1 = src ++ r := by
        intro h
        rw [h] at hs
        simp at hs
      simp [hs, hne, hne2, ih htail]

theorem mem_moveTree {fs : FS} {src dst : Path} {e' : Path × FsNode}
    (h : e' ∈ moveTree fs src dst) :
    (∃ e ∈ fs, leadsTo src e.1 = false ∧ e' = e) ∨
    (∃ e ∈ fs, leadsTo src e.1 = true ∧ e' = (dst ++ e.1.drop src.length, e.2)) := by
  induction fs with
  | nil => simp [moveTree] at h
  | cons e fs ih =>
    rw [moveTree] at h
    rcases List.mem_cons.1 h with heq | h
    · by_cases hs : leadsTo src e.1 = true
      · right
        exact ⟨e, List.mem_cons_self _ _, hs, by rw [heq, if_pos hs]⟩
      · left
        exact ⟨e, List.mem_cons_self _ _, by simpa using hs, by rw [heq, if_neg hs]⟩
    · rcases ih h with ⟨a, ha, h1, h2⟩ | ⟨a, ha, h1, h2⟩
      · exact Or.inl ⟨a, List.mem_cons_of_mem _ ha, h1, h2⟩
      · exact Or.inr ⟨a, List.mem_cons_of_mem _ ha, h1, h2⟩

theorem subtree_cons (e : Path × FsNode) (fs : FS) (p : Path) :
    subtree (e :: fs) p =
      if leadsTo p e.1 then (e.1.drop p.length, e.2) :: subtree fs p
      else subtree fs p := rfl

theorem subtree_eraseKey {fs : FS} {p k : Path} (h : leadsTo p k = false) :
    subtree (eraseKey fs k) p = subtree fs p := by
  induction fs with
  | nil => rfl
  | cons e fs ih =>
    rw [eraseKey, subtree_cons]
    by_cases hek : e.1 = k
    · simp [hek, h, ih]
    · rw [if_neg hek, subtree_cons, ih]

theorem subtree_removeAll {fs : FS} {p r : Path}
    (hpr : leadsTo p r = false) (hrp : leadsTo r p = false) :
    subtree (removeAll fs r) p = subtree fs p := by
  induction fs with
  | nil => rfl
  | cons e fs ih =>
    rw [removeAll, subtree_cons]
    by_cases hr : leadsTo r e.1 = true
    · have hp : leadsTo p e.1 = false := by
        cases hpe : leadsTo p e.1
        · rfl
        · rcases leadsTo_comparable hpe hr with hc | hc
          · rw [hc] at hpr; exact Bool.noConfusion hpr
          · rw [hc] at hrp; exact Bool.noConfusion hrp
      simp [hr, hp, ih]
    · rw [if_neg hr, subtree_cons, ih]

theorem subtree_moveTree {fs : FS} {src dst : Path}
    (hmem : ∀ e ∈ fs, leadsTo dst e.1 = false) :
    subtree (moveTree fs src dst) dst = subtree fs src := by
  induction fs with
  | nil => rfl
  | cons e fs ih =>
    have hd : leadsTo dst e.1 = false := hmem e (List.mem_cons_self _ _)
    have htail : ∀ e' ∈ fs, leadsTo dst e'.1 = false := fun e' he' =>
      hmem e' (List.mem_cons_of_mem _ he')
    rw [moveTree]
    by_cases hs : leadsTo src e.1 = true
    · rw [if_pos hs, subtree_cons]
      simp only [leadsTo_append, if_pos]
      rw [subtree_cons, if_pos hs, List.drop_left, ih htail]
    · rw [if_neg hs, subtree_cons, subtree_cons]
      rw [hd, if_neg (Bool.noConfusion : ¬ (false = true))]
      rw [if_neg (by simpa using hs), ih htail]

theorem statResFuel_of_lookup_none {fs : FS} {p : Path} {f : Nat}
    (hf : 0 < f) (h : lookup fs p = none) : statResFuel f fs p = .notExist := by
  cases f with
  | zero => omega
  | succ f => simp [statResFuel, h]

theorem statRes_of_lookup_none {fs : FS} {p : Path}
    (h : lookup fs p = none) : statRes fs p = .notExist :=
  statResFuel_of_lookup_none (by omega) h

theorem statResFuel_of_nonlink {fs : FS} {p : Path} {n : FsNode} {f : Nat}
    (hf : 0 < f) (h : lookup fs p = some n) (hn : n.isSymlink = false) :
    statResFuel f fs p = .found n := by
  cases f with
  | zero => omega
  | succ f =>
    cases n with
    | file d => simp [statResFuel, h]
    | dir => simp [statResFuel, h]
    | symlink t => simp [FsNode.isSymlink] at hn

theorem statRes_of_nonlink {fs : FS} {p : Path} {n : FsNode}
    (h : lookup fs p = some n) (hn : n.isSymlink = false) :
    statRes fs p = .found n :=
  statResFuel_of_nonlink (by omega) h hn

theorem statRes_of_lookup_dir {fs : FS} {p : Path}
    (h : lookup fs p = some .dir) : statRes fs p = .found .dir :=
  statRes_of_nonlink h rfl

theorem statResFuel_insert_new {fs : FS} {k : Path} {v : FsNode} {p : Path}
    {n : FsNode} {f : Nat} (hk : lookup fs k = none)
    (h : statResFuel f fs p = .found n) :
    statResFuel f ((k, v) :: fs) p = .found n := by
  induction f generalizing p with
  | zero => simp [statResFuel] at h
  | succ f ih =>
    rw [statResFuel] at h
    cases hl : lookup fs p with
    | none => rw [hl] at h; exact absurd h (by simp)
    | some m =>
      have hkp : ¬ k = p := by
        intro heq
        rw [heq] at hk
        rw [hk] at hl
        exact Option.noConfusion hl
      rw [hl] at h
      cases m with
      | symlink t =>
        rw [statResFuel, lookup_cons, if_neg hkp, hl]
        exact ih (by simpa using h)
      | file d =>
        rw [statResFuel, lookup_cons, if_neg hkp, hl]
        simpa using h
      | dir =>
        rw [statResFuel, lookup_cons, if_neg hkp, hl]
        simpa using h

theorem statRes_insert_new {fs : FS} {k : Path} {v : FsNode} {p : Path}
    {n : FsNode} (hk : lookup fs k = none)
    (h : statRes fs p = .found n) : statRes ((k, v) :: fs) p = .found n :=
  statResFuel_insert_new hk h

theorem resolveFuel_of_nonlink {fs : FS} {p : Path} {n : FsNode} {f : Nat}
    (hf : 0 < f) (h : lookup fs p = some n) (hn : n.isSymlink = false) :
    resolveFuel f fs p = some p := by
  cases f with
  | zero => omega
  | succ f =>
    cases n with
    | file d => simp [resolveFuel, h]
    | dir => simp [resolveFuel, h]
    | symlink t => simp [FsNode.isSymlink] at hn

theorem mkdirAll_nil (fs : FS) : mkdirAll fs [] = some fs := rfl

theorem mkdirAll_ne_nil (fs : FS) (p : Path) (h : ¬ p = []) :
    mkdirAll fs p =
      (match statRes fs p with
       | .found .dir => some fs
       | .found _ => none
       | .errLoop => none
       | .notExist =>
         match lookup fs p with
         | some _ => none
         | none =>
           match mkdirAll fs p.dropLast with
           | none => none
           | some fs' => some ((p, FsNode.dir) :: fs')) := by
  cases p using List.reverseRecOn with
  | nil => exact absurd rfl h
  | append_singleton as a =>
    show mkdirAllAux fs (as ++ [a]).reverse = _
    rw [List.reverse_append]
    simp only [List.reverse_cons, List.reverse_nil, List.nil_append,
      List.singleton_append]
    rw [mkdirAllAux]
    simp only [List.reverse_cons, List.reverse_reverse, List.dropLast_concat]
    rfl

theorem mkdirAll_of_found_dir {fs : FS} {p : Path}
    (h : statRes fs p = .found .dir) : mkdirAll fs p = some fs := by
  cases p with
  | nil => exact mkdirAll_nil fs
  | cons a rest =>
    rw [mkdirAll_ne_nil fs (a :: rest) (by simp), h]

theorem mkdirAll_step_new {fs : FS} {p : Path} {d : String}
    (hl : lookup fs (p ++ [d]) = none) (hp : statRes fs p = .found .dir) :
    mkdirAll fs (p ++ [d]) = some ((p ++ [d], FsNode.dir) :: fs) := by
  rw [mkdirAll_ne_nil fs (p ++ [d]) (by simp)]
  rw [statRes_of_lookup_none hl, hl, List.dropLast_concat,
    mkdirAll_of_found_dir hp]

theorem mkdirAll_postcondition {fs fs' : FS} {p : Path}
    (hp : ¬ p = []) (h : mkdirAll fs p = some fs') :
    statRes fs' p = .found .dir := by
  rw [mkdirAll_ne_nil fs p hp] at h
  cases hs : statRes fs p with
  | found n =>
    cases n with
    | dir =>
      rw [hs] at h
      cases h
      exact hs
    | file d => rw [hs] at h; exact Option.noConfusion h
    | symlink t => rw [hs] at h; exact Option.noConfusion h
  | notExist =>
    rw [hs] at h
    cases hl : lookup fs p with
    | some v => rw [hl] at h; exact Option.noConfusion h
    | none =>
      rw [hl] at h
      cases hr : mkdirAll fs p.dropLast with
      | none => rw [hr] at h; exact Option.noConfusion h
      | some fs₂ =>
        rw [hr] at h
        cases h
        exact statRes_of_lookup_dir (by simp)
  | errLoop => rw [hs] at h; exact Option.noConfusion h

theorem mkdirAll_lookup_outside {fs fs' : FS} {r : Path}
    (h : mkdirAll fs r = some fs') :
    ∀ q, leadsTo q r = false → lookup fs' q = lookup fs q := by
  induction r using List.reverseRecOn generalizing fs' with
  | nil =>
    rw [mkdirAll_nil] at h
    cases h
    intro q _
    rfl
  | append_singleton as a ih =>
    rw [mkdirAll_ne_nil fs (as ++ [a]) (by simp)] at h
    intro q hq
    cases hs : statRes fs (as ++ [a]) with
    | found n =>
      cases n with
      | dir => rw [hs] at h; cases h; rfl
      | file d => rw [hs] at h; exact Option.noConfusion h
      | symlink t => rw [hs] at h; exact Option.noConfusion h
    | errLoop => rw [hs] at h; exact Option.noConfusion h
    | notExist =>
      rw [hs] at h
      cases hl : lookup fs (as ++ [a]) with
      | some v => rw [hl] at h; exact Option.noConfusion h
      | none =>
        rw [hl] at h
        cases hr : mkdirAll fs (as ++ [a]).dropLast with
        | none => rw [hr] at h; exact Option.noConfusion h
        | some fs₂ =>
          rw [hr] at h
          cases h
          have hqas : leadsTo q as = false := by
            cases hc : leadsTo q as
            · rfl
            · have : leadsTo q (as ++ [a]) = true :=
                leadsTo_trans hc (leadsTo_append as [a])
              rw [this] at hq
              exact Bool.noConfusion hq
          have hne : ¬ as ++ [a] = q := by
            intro heq
            rw [← heq] at hq
            rw [leadsTo_refl] at hq
            exact Bool.noConfusion hq
          rw [lookup_cons, if_neg hne]
          rw [List.dropLast_concat] at hr
          exact ih hr q hqas

theorem mkdirAll_stat_preserved {fs fs' : FS} {r : Path}
    (h : mkdirAll fs r = some fs') :
    ∀ p n, statRes fs p = .found n → statRes fs' p = .found n := by
  induction r using List.reverseRecOn generalizing fs' with
  | nil =>
    rw [mkdirAll_nil] at h
    cases h
    intro p n hp
    exact hp
  | append_singleton as a ih =>
    rw [mkdirAll_ne_nil fs (as ++ [a]) (by simp)] at h
    intro p n hp
    cases hs : statRes fs (as ++ [a]) with
    | found m =>
      cases m with
      | dir => rw [hs] at h; cases h; exact hp
      | file d => rw [hs] at h; exact Option.noConfusion h
      | symlink t => rw [hs] at h; exact Option.noConfusion h
    | errLoop => rw [hs] at h; exact Option.noConfusion h
    | notExist =>
      rw [hs] at h
      cases hl : lookup fs (as ++ [a]) with
      | some v => rw [hl] at h; exact Option.noConfusion h
      | none =>
        rw [hl] at h
        cases hr : mkdirAll fs (as ++ [a]).dropLast with
        | none => rw [hr] at h; exact Option.noConfusion h
        | some fs₂ =>
          rw [hr] at h
          cases h
          rw [List.dropLast_concat] at hr
          have h2 := ih hr p n hp
          have hlook : lookup fs₂ (as ++ [a]) = none := by
            have hq : leadsTo (as ++ [a]) as = false := by
              cases hc : leadsTo (as ++ [a]) as
              · rfl
              · have := leadsTo_length hc
                simp at this
            rw [mkdirAll_lookup_outside hr (as ++ [a]) hq]
            exact hl
          exact statRes_insert_new hlook h2

theorem symlink_free {fs : FS} {target link : Path}
    (h : lookup fs link = none) :
    symlink fs target link = some ((link, FsNode.symlink target) :: fs) := by
  rw [symlink, h]

theorem remove_of_symlink {fs : FS} {p : Path} {t : Path}
    (h : lookup fs p = some (.symlink t)) :
    remove fs p = some (eraseKey fs p) := by
  rw [remove, h]

theorem rename_free {fs : FS} {src dst : Path} {n : FsNode}
    (hne : ¬ src = dst) (hsd : leadsTo src dst = false)
    (hs : lookup fs src = some n) (hd : lookup fs dst = none) :
    rename fs src dst = some (moveTree fs src dst) := by
  rw [rename, if_neg hne, if_neg (by simp [hsd]), hs, hd]

theorem getActive_of_symlink {m : Manager} {fs : FS} {t : Path}
    (h : lookup fs m.MinecraftPath = some (.symlink t)) :
    m.GetActiveInstance fs = pathBase t := by
  rw [Manager.GetActiveInstance, h]

theorem sep_live_ne_backup {m : Manager} (h : m.Sep) :
    ¬ m.MinecraftPath = m.BackupPath := by
  intro heq
  have h1 := h.1
  rw [heq, leadsTo_refl] at h1
  exact Bool.noConfusion h1

theorem sep_backup_ne_live {m : Manager} (h : m.Sep) :
    ¬ m.BackupPath = m.MinecraftPath := fun heq =>
  sep_live_ne_backup h heq.symm

theorem sep_instPath_not_live {m : Manager} (h : m.Sep) (name : String) :
    leadsTo (m.InstancesPath ++ [name]) m.MinecraftPath = false ∧
    ¬ m.InstancesPath ++ [name] = m.MinecraftPath := by
  constructor
  · cases hc : leadsTo (m.InstancesPath ++ [name]) m.MinecraftPath
    · rfl
    · have h3 := h.2.2.1
      have : leadsTo m.InstancesPath m.MinecraftPath = true :=
        leadsTo_trans (leadsTo_append m.InstancesPath [name]) hc
      rw [this] at h3
      exact Bool.noConfusion h3
  · intro heq
    have h3 := h.2.2.1
    rw [← heq] at h3
    rw [leadsTo_append] at h3
    exact Bool.noConfusion h3

/-- The final state of a successful `SwitchInstance` whose displacement
renamed a real (non-link) live object into the backup slot. -/
theorem switch_spec_nonlink {m : Manager} {fs : FS} {name : String} {n nd : FsNode}
    (hsep : m.Sep) (hname : ¬ name = "")
    (hst : statRes fs (m.InstancesPath ++ [name]) = .found nd)
    (hn : lookup fs m.MinecraftPath = some n) (hns : n.isSymlink = false) :
    m.SwitchInstance name fs =
      ((m.MinecraftPath, FsNode.symlink (m.InstancesPath ++ [name])) ::
        moveTree (removeAll fs m.BackupPath) m.MinecraftPath m.BackupPath, .ok ()) := by
  have h1 : lookup (removeAll fs m.BackupPath) m.MinecraftPath = some n := by
    rw [lookup_removeAll, hsep.2.1]
    simpa using hn
  have h2 : lookup (removeAll fs m.BackupPath) m.BackupPath = none := by
    rw [lookup_removeAll]
    simp
  have h3 : rename (removeAll fs m.BackupPath) m.MinecraftPath m.BackupPath
      = some (moveTree (removeAll fs m.BackupPath) m.MinecraftPath m.BackupPath) :=
    rename_free (sep_live_ne_backup hsep) hsep.1 h1 h2
  have h4 : lookup (moveTree (removeAll fs m.BackupPath) m.MinecraftPath m.BackupPath)
      m.MinecraftPath = none :=
    lookup_moveTree_gone (leadsTo_refl _) hsep.2.1
  have h5 := @symlink_free _ (m.InstancesPath ++ [name]) _ h4
  unfold Manager.SwitchInstance
  rw [if_neg hname, hst]
  simp only [reduceCtorEq, if_false, hn, hns]
  simp [h3, h5]

/-- The final state of a successful `SwitchInstance` that found a
symbolic link at the live path: the link is replaced, nothing else. -/
theorem switch_spec_link {m : Manager} {fs : FS} {name : String} {t : Path} {nd : FsNode}
    (hname : ¬ name = "")
    (hst : statRes fs (m.InstancesPath ++ [name]) = .found nd)
    (hn : lookup fs m.MinecraftPath = some (.symlink t)) :
    m.SwitchInstance name fs =
      ((m.MinecraftPath, FsNode.symlink (m.InstancesPath ++ [name])) ::
        eraseKey fs m.MinecraftPath, .ok ()) := by
  have h1 := remove_of_symlink hn
  have h2 : lookup (eraseKey fs m.MinecraftPath) m.MinecraftPath = none := by
    rw [lookup_eraseKey]
    simp
  have h3 := @symlink_free _ (m.InstancesPath ++ [name]) _ h2
  unfold Manager.SwitchInstance
  rw [if_neg hname, hst]
  simp only [reduceCtorEq, if_false, hn, FsNode.isSymlink]
  simp [h1, h3]

/-- The final state of a successful `SwitchInstance` that found the live
path absent: the link is created, nothing is displaced. -/
theorem switch_spec_absent {m : Manager} {fs : FS} {name : String} {nd : FsNode}
    (hname : ¬ name = "")
    (hst : statRes fs (m.InstancesPath ++ [name]) = .found nd)
    (hn : lookup fs m.MinecraftPath = none) :
    m.SwitchInstance name fs =
      ((m.MinecraftPath, FsNode.symlink (m.InstancesPath ++ [name])) :: fs, .ok ()) := by
  have h3 := @symlink_free _ (m.InstancesPath ++ [name]) _ hn
  unfold Manager.SwitchInstance
  rw [if_neg hname, hst]
  simp only [reduceCtorEq, if_false, hn]
  simp [h3]

theorem makeEssentialDirs_stat_preserved {instancePath : Path} {fs fs' : FS}
    {ds : List String}
    (h : makeEssentialDirs instancePath fs ds = (fs', .ok ())) :
    ∀ p n, statRes fs p = .found n → statRes fs' p = .found n := by
  induction ds generalizing fs with
  | nil =>
    rw [makeEssentialDirs] at h
    cases h
    intro p n hp
    exact hp
  | cons d ds ih =>
    rw [makeEssentialDirs] at h
    cases hm : mkdirAll fs (instancePath ++ [d]) with
    | none => rw [hm] at h; simp at h
    | some fs₁ =>
      rw [hm] at h
      intro p n hp
      exact ih h p n (mkdirAll_stat_preserved hm p n hp)

theorem makeEssentialDirs_post {instancePath : Path} {fs fs' : FS}
    {ds : List String}
    (h : makeEssentialDirs instancePath fs ds = (fs', .ok ())) :
    ∀ d ∈ ds, statRes fs' (instancePath ++ [d]) = .found .dir := by
  induction ds generalizing fs with
  | nil => intro d hd; simp at hd
  | cons d ds ih =>
    rw [makeEssentialDirs] at h
    cases hm : mkdirAll fs (instancePath ++ [d]) with
    | none => rw [hm] at h; simp at h
    | some fs₁ =>
      rw [hm] at h
      intro d' hd'
      rcases List.mem_cons.1 hd' with rfl | hd'
      · have hpost := mkdirAll_postcondition (by simp) hm
        exact makeEssentialDirs_stat_preserved h _ _ hpost
      · exact ih h d' hd'

theorem lookup_mem {fs : FS} {p : Path} {n : FsNode}
    (h : lookup fs p = some n) : (p, n) ∈ fs := by
  induction fs with
  | nil => simp [lookup] at h
  | cons e fs ih =>
    rw [lookup_cons] at h
    by_cases hep : e.1 = p
    · rw [if_pos hep] at h
      cases h
      have he : e = (p, e.2) := Prod.ext hep rfl
      rw [← he]
      exact List.mem_cons_self _ _
    · rw [if_neg hep] at h
      exact List.mem_cons_of_mem _ (ih h)

theorem mem_childRaw {fs : FS} {p : Path} {e : Path × FsNode}
    (he : e ∈ fs) (hd : e.1.dropLast = p) (hn : ¬ e.1 = []) :
    pathBase e.1 ∈ childRaw fs p := by
  induction fs with
  | nil => simp at he
  | cons e' fs ih =>
    rw [childRaw]
    rcases List.mem_cons.1 he with rfl | he
    · rw [if_pos ⟨hd, hn⟩]
      exact List.mem_cons_self _ _
    · by_cases hc : e'.1.dropLast = p ∧ ¬ e'.1 = []
      · rw [if_pos hc]
        exact List.mem_cons_of_mem _ (ih he)
      · rw [if_neg hc]
        exact ih he

theorem mem_dedupStrs {l : List String} {a : String} (h : a ∈ l) :
    a ∈ dedupStrs l := by
  induction l with
  | nil => simp at h
  | cons b bs ih =>
    rw [dedupStrs]
    rcases List.mem_cons.1 h with rfl | h
    · exact List.mem_cons_self _ _
    · by_cases hab : a = b
      · subst hab
        exact List.mem_cons_self _ _
      · exact List.mem_cons_of_mem _ (List.mem_filter.2 ⟨ih h, by simpa using hab⟩)

theorem mem_insertStr {l : List String} {a b : String} :
    b ∈ insertStr a l ↔ b = a ∨ b ∈ l := by
  induction l with
  | nil => simp [insertStr]
  | cons c cs ih =>
    rw [insertStr]
    by_cases hac : strLt a c = true
    · simp [hac]
    · rw [if_neg (by simpa using hac)]
      simp only [List.mem_cons, ih]
      tauto

theorem mem_sortStrs {l : List String} {a : String} :
    a ∈ sortStrs l ↔ a ∈ l := by
  induction l with
  | nil => simp [sortStrs]
  | cons b bs ih =>
    rw [sortStrs, mem_insertStr, ih]
    simp

theorem sortStrs_perm (l : List String) : (sortStrs l).Perm l := by
  induction l with
  | nil => simp [sortStrs]
  | cons b bs ih =>
    rw [sortStrs]
    have hins : ∀ (m : List String), (insertStr b m).Perm (b :: m) := by
      intro m
      induction m with
      | nil => simp [insertStr]
      | cons c cs ihm =>
        rw [insertStr]
        by_cases hbc : strLt b c = true
        · rw [if_pos hbc]
        · rw [if_neg (by simpa using hbc)]
          exact (ihm.cons c).trans (List.Perm.swap b c cs)
    exact (hins (sortStrs bs)).trans (ih.cons b)

theorem mem_insertInstance {l : List Instance} {a b : Instance} :
    b ∈ insertInstance a l ↔ b = a ∨ b ∈ l := by
  induction l with
  | nil => simp [insertInstance]
  | cons c cs ih =>
    rw [insertInstance]
    by_cases hac : strLt a.Name c.Name = true
    · simp [hac]
    · rw [if_neg (by simpa using hac)]
      simp only [List.mem_cons, ih]
      tauto

theorem sortInstances_perm (l : List Instance) : (sortInstances l).Perm l := by
  induction l with
  | nil => simp [sortInstances]
  | cons b bs ih =>
    rw [sortInstances]
    have hins : ∀ (m : List Instance), (insertInstance b m).Perm (b :: m) := by
      intro m
      induction m with
      | nil => simp [insertInstance]
      | cons c cs ihm =>
        rw [insertInstance]
        by_cases hbc : strLt b.Name c.Name = true
        · rw [if_pos hbc]
        · rw [if_neg (by simpa using hbc)]
          exact (ihm.cons c).trans (List.Perm.swap b c cs)
    exact (hins (sortInstances bs)).trans (ih.cons b)

theorem mem_sortInstances {l : List Instance} {a : Instance} :
    a ∈ sortInstances l ↔ a ∈ l :=
  (sortInstances_perm l).mem_iff

theorem filterMap_filter_name (f : String → Option Instance)
    (hf : ∀ nm i, f nm = some i → i.Name = nm) (name : String) :
    ∀ names : List String,
      (names.filterMap f).filter (fun i => decide (i.Name = name)) =
        (names.filter (fun nm => decide (nm = name))).filterMap f := by
  intro names
  induction names with
  | nil => rfl
  | cons nm names ih =>
    by_cases hn : nm = name
    · subst hn
      cases hfnm : f nm with
      | none => simp [List.filterMap_cons, List.filter_cons, hfnm, ih]
      | some i =>
        have hin : i.Name = nm := hf nm i hfnm
        simp [List.filterMap_cons, List.filter_cons, hfnm, hin, ih]
    · cases hfnm : f nm with
      | none => simp [List.filterMap_cons, List.filter_cons, hfnm, hn, ih]
      | some i =>
        have hin : i.Name = nm := hf nm i hfnm
        have hne : ¬ i.Name = name := by rw [hin]; exact hn
        simp [List.filterMap_cons, List.filter_cons, hfnm, hn, hne, ih]

theorem filter_filter_not (a : String) (l : List String) :
    (l.filter (fun b => ¬ b = a)).filter (fun b => decide (b = a)) = [] := by
  induction l with
  | nil => rfl
  | cons c cs ih =>
    rw [List.filter_cons]
    by_cases hca : c = a
    · simp [hca, ih]
    · simp only [hca, decide_not, decide_False, Bool.not_false, if_true]
      rw [List.filter_cons]
      simp [hca, ih]

theorem sortInstances_filter_singleton (l : List Instance) (p : Instance → Bool)
    (t : Instance) (h : l.filter p = [t]) : (sortInstances l).filter p = [t] := by
  have hpm := (sortInstances_perm l).filter p
  rw [h] at hpm
  exact List.perm_singleton.1 hpm

theorem filter_dedup_head (a : String) (l : List String) :
    (dedupStrs (a :: l)).filter (fun b => decide (b = a)) = [a] := by
  rw [dedupStrs, List.filter_cons]
  simp only [decide_True, if_true]
  rw [filter_filter_not]

/-! ### The claims -/

/-- C6: `GetActiveInstance` is a read-only query (a pure function of the
filesystem in this embedding): it performs a non-following stat of the
live path; when the live path is a symbolic link — whether or not its
target exists — it returns the base name of the link target; in every
other case (real directory, plain file, or absent path) it returns the
sentinel string `"default"`. -/
theorem C6_active_instance_query (m : Manager) (fs : FS) :
    (∀ t, lookup fs m.MinecraftPath = some (FsNode.symlink t) →
      m.GetActiveInstance fs = pathBase t) ∧
    (lookup fs m.MinecraftPath = some FsNode.dir →
      m.GetActiveInstance fs = "default") ∧
    (∀ d, lookup fs m.MinecraftPath = some (FsNode.file d) →
      m.GetActiveInstance fs = "default") ∧
    (lookup fs m.MinecraftPath = none →
      m.GetActiveInstance fs = "default") := by
  refine ⟨?_, ?_, ?_, ?_⟩
  · intro t h
    rw [Manager.GetActiveInstance, h]
  · intro h
    rw [Manager.GetActiveInstance, h]
  · intro d h
    rw [Manager.GetActiveInstance, h]
  · intro h
    rw [Manager.GetActiveInstance, h]

theorem C6_witness :
    (⟨["i"], ["mc"], ["b"]⟩ : Manager).GetActiveInstance
      [(["mc"], FsNode.symlink ["i", "a"])] = "a" ∧
    (⟨["i"], ["mc"], ["b"]⟩ : Manager).GetActiveInstance [] = "default" := by
  have h1 := C6_active_instance_query (⟨["i"], ["mc"], ["b"]⟩ : Manager)
    [(["mc"], FsNode.symlink ["i", "a"])]
  have h2 := C6_active_instance_query (⟨["i"], ["mc"], ["b"]⟩ : Manager) []
  exact ⟨(h1.1 ["i", "a"] (by decide)).trans (by decide), h2.2.2.2 (by decide)⟩

/-- C10: the two generations of the instance package are behaviorally
equivalent on the switching engine: on every filesystem state and every
name the older and the current `SwitchInstance` (respectively
`RestoreDefault`) return the same state and outcome and issue the same
sequence of mutating filesystem calls. -/
theorem C10_generations_equivalent :
    (∀ (m : Manager) (name : String) (fs : FS),
      m.SwitchInstanceV1 name fs = m.SwitchInstance name fs ∧
      m.SwitchInstanceOpsV1 name fs = m.SwitchInstanceOps name fs) ∧
    (∀ (m : Manager) (fs : FS),
      m.RestoreDefaultV1 fs = m.RestoreDefault fs ∧
      m.RestoreDefaultOpsV1 fs = m.RestoreDefaultOps fs) :=
  ⟨fun _ _ _ => ⟨rfl, rfl⟩, fun _ _ => ⟨rfl, rfl⟩⟩

/-- C3: `DeleteInstance` fails with the empty-name error on an empty
name, with the not-found error when the instance directory does not
exist, and with the active-instance error when the instance is the
currently active one; every failing case returns the filesystem
unchanged (so a listing after a refused delete equals the listing
before), and only when no condition fires is the instance directory
recursively removed. -/
theorem C3_delete_errors (m : Manager) (name : String) (fs : FS) :
    (name = "" → m.DeleteInstance name fs = (fs, .error .emptyName)) ∧
    (¬ name = "" → statRes fs (m.InstancesPath ++ [name]) = .notExist →
      m.DeleteInstance name fs = (fs, .error (.notFound name))) ∧
    (¬ name = "" → ¬ statRes fs (m.InstancesPath ++ [name]) = .notExist →
      m.GetActiveInstance fs = name →
      m.DeleteInstance name fs = (fs, .error (.activeInstance name)) ∧
      m.ListInstances (m.DeleteInstance name fs).1 = m.ListInstances fs) ∧
    (¬ name = "" → ¬ statRes fs (m.InstancesPath ++ [name]) = .notExist →
      ¬ m.GetActiveInstance fs = name →
      m.DeleteInstance name fs =
        (removeAll fs (m.InstancesPath ++ [name]), .ok ())) := by
  refine ⟨?_, ?_, ?_, ?_⟩
  · intro h
    unfold Manager.DeleteInstance
    rw [if_pos h]
  · intro h1 h2
    unfold Manager.DeleteInstance
    rw [if_neg h1, if_pos h2]
  · intro h1 h2 h3
    have hd : m.DeleteInstance name fs = (fs, .error (.activeInstance name)) := by
      unfold Manager.DeleteInstance
      rw [if_neg h1, if_neg h2, if_pos h3]
    exact ⟨hd, by rw [hd]⟩
  · intro h1 h2 h3
    unfold Manager.DeleteInstance
    rw [if_neg h1, if_neg h2, if_neg h3]

theorem C3_witness :
    (⟨["i"], ["mc"], ["b"]⟩ : Manager).DeleteInstance "a"
        [(["i"], FsNode.dir), (["i", "a"], FsNode.dir),
         (["mc"], FsNode.symlink ["i", "a"])] =
      ([(["i"], FsNode.dir), (["i", "a"], FsNode.dir),
        (["mc"], FsNode.symlink ["i", "a"])],
       .error (.activeInstance "a")) := by
  have h := C3_delete_errors (⟨["i"], ["mc"], ["b"]⟩ : Manager) "a"
    [(["i"], FsNode.dir), (["i", "a"], FsNode.dir),
     (["mc"], FsNode.symlink ["i", "a"])]
  exact (h.2.2.1 (by decide) (by decide) (by decide)).1

/-- C8: `UpdateConfig` accepts exactly the closed key set
minecraft-path, instances-path and backup-path with their documented
synonyms (`-dir` and bare forms); any other key is refused with the
unknown-key error and no field mutated and nothing persisted.  A
recognized key gets the value with a leading `~` expanded to the home
directory assigned to its field, the instances directory is created only
for the instances-path key, and the configuration is persisted; values
are accepted as arbitrary strings with no existence check. -/
theorem C8_update_config (m : CfgManager) (key value : String) :
    ((key = "minecraft-path" ∨ key = "minecraft-dir" ∨ key = "minecraft") →
      UpdateConfig m key value =
        ({ m with MinecraftPath := expandPath m.HomeDir value },
          [CfgEffect.writeConfigFile
            { InstancesPath := m.InstancesPath
              MinecraftPath := expandPath m.HomeDir value
              BackupPath := m.BackupPath }], .ok ())) ∧
    ((key = "instances-path" ∨ key = "instances-dir" ∨ key = "instances") →
      UpdateConfig m key value =
        ({ m with InstancesPath := expandPath m.HomeDir value },
          [CfgEffect.mkdirInstances (expandPath m.HomeDir value),
           CfgEffect.writeConfigFile
            { InstancesPath := expandPath m.HomeDir value
              MinecraftPath := m.MinecraftPath
              BackupPath := m.BackupPath }], .ok ())) ∧
    ((key = "backup-path" ∨ key = "backup-dir" ∨ key = "backup") →
      UpdateConfig m key value =
        ({ m with BackupPath := expandPath m.HomeDir value },
          [CfgEffect.writeConfigFile
            { InstancesPath := m.InstancesPath
              MinecraftPath := m.MinecraftPath
              BackupPath := expandPath m.HomeDir value }], .ok ())) ∧
    (¬ (key = "minecraft-path" ∨ key = "minecraft-dir" ∨ key = "minecraft") →
     ¬ (key = "instances-path" ∨ key = "instances-dir" ∨ key = "instances") →
     ¬ (key = "backup-path" ∨ key = "backup-dir" ∨ key = "backup") →
      UpdateConfig m key value = (m, [], .error (.unknownKey key))) ∧
    (strHasLead value "~" = true →
      expandPath m.HomeDir value = joinPath m.HomeDir (String.mk (value.data.drop 1))) ∧
    (strHasLead value "~" = false → expandPath m.HomeDir value = value) := by
  have hmk : key = "minecraft-path" ∨ key = "minecraft-dir" ∨ key = "minecraft" ∨
      True := Or.inr (Or.inr (Or.inr trivial))
  refine ⟨?_, ?_, ?_, ?_, ?_, ?_⟩
  · intro h
    unfold UpdateConfig
    rw [if_pos h]
    rw [saveConfig]
  · intro h
    have h1 : ¬ (key = "minecraft-path" ∨ key = "minecraft-dir" ∨ key = "minecraft") := by
      rcases h with rfl | rfl | rfl <;> simp
    unfold UpdateConfig
    rw [if_neg h1, if_pos h]
    rw [saveConfig]
  · intro h
    have h1 : ¬ (key = "minecraft-path" ∨ key = "minecraft-dir" ∨ key = "minecraft") := by
      rcases h with rfl | rfl | rfl <;> simp
    have h2 : ¬ (key = "instances-path" ∨ key = "instances-dir" ∨ key = "instances") := by
      rcases h with rfl | rfl | rfl <;> simp
    unfold UpdateConfig
    rw [if_neg h1, if_neg h2, if_pos h]
    rw [saveConfig]
  · intro h1 h2 h3
    unfold UpdateConfig
    rw [if_neg h1, if_neg h2, if_neg h3]
  · intro h
    have hv : ¬ value = "" := by
      intro hv
      subst hv
      exact absurd h (by decide)
    rw [expandPath, if_neg hv, if_pos h]
  · intro h
    by_cases hv : value = ""
    · rw [expandPath, if_pos hv]
    · rw [expandPath, if_neg hv, if_neg (by simp [h])]

theorem C8_witness :
    UpdateConfig ⟨"/home/u", "/home/u/.config/minecraft-instance/instances",
        "/home/u/.minecraft", "/home/u/.config/minecraft-instance/backup"⟩
      "instances-path" "~/custom" =
      (⟨"/home/u", "/home/u/custom", "/home/u/.minecraft",
        "/home/u/.config/minecraft-instance/backup"⟩,
       [CfgEffect.mkdirInstances "/home/u/custom",
        CfgEffect.writeConfigFile
          ⟨"/home/u/custom", "/home/u/.minecraft",
           "/home/u/.config/minecraft-instance/backup"⟩], .ok ()) := by
  have h := C8_update_config
    ⟨"/home/u", "/home/u/.config/minecraft-instance/instances",
     "/home/u/.minecraft", "/home/u/.config/minecraft-instance/backup"⟩
    "instances-path" "~/custom"
  exact (h.2.1 (Or.inl rfl)).trans (by decide)

/-- C1: for every non-empty name of an existing instance,
`SwitchInstance` follows the displacement algorithm — a real (non-link)
live object is renamed onto the freshly cleared backup slot; a live
symbolic link is removed with the backup slot untouched; an absent live
path displaces nothing — then a symbolic link to the instance directory
is created at the live path, and on success `GetActiveInstance` returns
the name. -/
theorem C1_switch_displacement (m : Manager) (fs : FS) (name : String) (nd : FsNode)
    (hsep : m.Sep) (hname : ¬ name = "")
    (hst : statRes fs (m.InstancesPath ++ [name]) = .found nd) :
    ∃ fs', m.SwitchInstance name fs = (fs', .ok ()) ∧
      lookup fs' m.MinecraftPath = some (FsNode.symlink (m.InstancesPath ++ [name])) ∧
      m.GetActiveInstance fs' = name ∧
      (∀ n, lookup fs m.MinecraftPath = some n → n.isSymlink = false →
        subtree fs' m.BackupPath = subtree fs m.MinecraftPath) ∧
      (∀ t, lookup fs m.MinecraftPath = some (FsNode.symlink t) →
        ∀ q, leadsTo m.BackupPath q = true → lookup fs' q = lookup fs q) ∧
      (lookup fs m.MinecraftPath = none →
        ∀ q, ¬ q = m.MinecraftPath → lookup fs' q = lookup fs q) := by
  have hlive : ∀ g : FS,
      lookup ((m.MinecraftPath, FsNode.symlink (m.InstancesPath ++ [name])) :: g)
        m.MinecraftPath = some (FsNode.symlink (m.InstancesPath ++ [name])) := by
    intro g
    rw [lookup_cons, if_pos rfl]
  have hact : ∀ g : FS,
      m.GetActiveInstance
        ((m.MinecraftPath, FsNode.symlink (m.InstancesPath ++ [name])) :: g) = name := by
    intro g
    rw [getActive_of_symlink (hlive g), pathBase_concat]
  cases hl : lookup fs m.MinecraftPath with
  | none =>
    refine ⟨(m.MinecraftPath, FsNode.symlink (m.InstancesPath ++ [name])) :: fs,
      switch_spec_absent hname hst hl, hlive fs, hact fs, ?_, ?_, ?_⟩
    · intro n hn
      exact Option.noConfusion hn
    · intro t ht
      exact Option.noConfusion ht
    · intro _ q hq
      rw [lookup_cons, if_neg (fun h => hq h.symm)]
  | some n =>
    cases n with
    | symlink t =>
      refine ⟨(m.MinecraftPath, FsNode.symlink (m.InstancesPath ++ [name])) ::
          eraseKey fs m.MinecraftPath,
        switch_spec_link hname hst hl, hlive _, hact _, ?_, ?_, ?_⟩
      · intro n' hn' hns
        cases Option.some.inj hn'
        simp [FsNode.isSymlink] at hns
      · intro t' _ q hq
        have hqlive : ¬ m.MinecraftPath = q := by
          intro heq
          rw [← heq] at hq
          rw [hsep.2.1] at hq
          exact Bool.noConfusion hq
        rw [lookup_cons, if_neg hqlive, lookup_eraseKey,
          if_neg (fun h => hqlive h.symm)]
      · intro hnone
        exact Option.noConfusion hnone
    | dir =>
      refine ⟨(m.MinecraftPath, FsNode.symlink (m.InstancesPath ++ [name])) ::
          moveTree (removeAll fs m.BackupPath) m.MinecraftPath m.BackupPath,
        switch_spec_nonlink hsep hname hst hl rfl, hlive _, hact _, ?_, ?_, ?_⟩
      · intro n' _ _
        rw [subtree_cons, if_neg (by rw [hsep.2.1]; exact Bool.noConfusion)]
        rw [subtree_moveTree (fun e he => (mem_removeAll he).2)]
        exact subtree_removeAll hsep.1 hsep.2.1
      · intro t' ht'
        exact FsNode.noConfusion (Option.some.inj ht')
      · intro hnone
        exact Option.noConfusion hnone
    | file d =>
      refine ⟨(m.MinecraftPath, FsNode.symlink (m.InstancesPath ++ [name])) ::
          moveTree (removeAll fs m.BackupPath) m.MinecraftPath m.BackupPath,
        switch_spec_nonlink hsep hname hst hl rfl, hlive _, hact _, ?_, ?_, ?_⟩
      · intro n' _ _
        rw [subtree_cons, if_neg (by rw [hsep.2.1]; exact Bool.noConfusion)]
        rw [subtree_moveTree (fun e he => (mem_removeAll he).2)]
        exact subtree_removeAll hsep.1 hsep.2.1
      · intro t' ht'
        exact FsNode.noConfusion (Option.some.inj ht')
      · intro hnone
        exact Option.noConfusion hnone

theorem C1_witness :
    ∃ fs', (⟨["i"], ["mc"], ["b"]⟩ : Manager).SwitchInstance "a"
        [(["mc"], FsNode.dir), (["i", "a"], FsNode.dir)] = (fs', .ok ()) ∧
      lookup fs' ["mc"] = some (FsNode.symlink ["i", "a"]) ∧
      (⟨["i"], ["mc"], ["b"]⟩ : Manager).GetActiveInstance fs' = "a" ∧
      (∀ n, lookup [(["mc"], FsNode.dir), (["i", "a"], FsNode.dir)] ["mc"] = some n →
        n.isSymlink = false →
        subtree fs' ["b"] =
          subtree [(["mc"], FsNode.dir), (["i", "a"], FsNode.dir)] ["mc"]) ∧
      (∀ t, lookup [(["mc"], FsNode.dir), (["i", "a"], FsNode.dir)] ["mc"] =
          some (FsNode.symlink t) →
        ∀ q, leadsTo ["b"] q = true →
          lookup fs' q = lookup [(["mc"], FsNode.dir), (["i", "a"], FsNode.dir)] q) ∧
      (lookup [(["mc"], FsNode.dir), (["i", "a"], FsNode.dir)] ["mc"] = none →
        ∀ q, ¬ q = ["mc"] →
          lookup fs' q = lookup [(["mc"], FsNode.dir), (["i", "a"], FsNode.dir)] q) := by
  have h := C1_switch_displacement ⟨["i"], ["mc"], ["b"]⟩
    [(["mc"], FsNode.dir), (["i", "a"], FsNode.dir)] "a" FsNode.dir
    (by decide) (by decide) (by decide)
  exact h

/-- C2: starting from a live path that is a real (non-link) directory,
`SwitchInstance a` followed by `RestoreDefault` restores the live path
to exactly its pre-switch contents, and after the switch the backup slot
holds exactly the pre-switch live contents regardless of what the
single-slot backup held before — the previous backup is deleted before
each new displacement, so only the most recent pre-switch state is
recoverable. -/
theorem C2_switch_restore_roundtrip (m : Manager) (fs : FS) (a : String) (nd : FsNode)
    (hsep : m.Sep) (ha : ¬ a = "")
    (hlive : lookup fs m.MinecraftPath = some FsNode.dir)
    (hst : statRes fs (m.InstancesPath ++ [a]) = .found nd) :
    ∃ fs₁ fs₂, m.SwitchInstance a fs = (fs₁, .ok ()) ∧
      subtree fs₁ m.BackupPath = subtree fs m.MinecraftPath ∧
      m.RestoreDefault fs₁ = (fs₂, .ok ()) ∧
      subtree fs₂ m.MinecraftPath = subtree fs m.MinecraftPath := by
  have hsw := switch_spec_nonlink hsep ha hst hlive rfl
  have hmem1 : ∀ e ∈ removeAll fs m.BackupPath, leadsTo m.BackupPath e.1 = false :=
    fun e he => (mem_removeAll he).2
  have hgb_sub : subtree (moveTree (removeAll fs m.BackupPath) m.MinecraftPath m.BackupPath)
      m.BackupPath = subtree fs m.MinecraftPath := by
    rw [subtree_moveTree hmem1]
    exact subtree_removeAll hsep.1 hsep.2.1
  have hb1 : subtree ((m.MinecraftPath, FsNode.symlink (m.InstancesPath ++ [a])) ::
      moveTree (removeAll fs m.BackupPath) m.MinecraftPath m.BackupPath)
      m.BackupPath = subtree fs m.MinecraftPath := by
    rw [subtree_cons, if_neg (by rw [hsep.2.1]; exact Bool.noConfusion)]
    exact hgb_sub
  have hl1 : lookup ((m.MinecraftPath, FsNode.symlink (m.InstancesPath ++ [a])) ::
      moveTree (removeAll fs m.BackupPath) m.MinecraftPath m.BackupPath)
      m.MinecraftPath = some (FsNode.symlink (m.InstancesPath ++ [a])) := by
    rw [lookup_cons, if_pos rfl]
  have hg : lookup (moveTree (removeAll fs m.BackupPath) m.MinecraftPath m.BackupPath)
      m.MinecraftPath = none :=
    lookup_moveTree_gone (leadsTo_refl _) hsep.2.1
  have hrm : remove ((m.MinecraftPath, FsNode.symlink (m.InstancesPath ++ [a])) ::
      moveTree (removeAll fs m.BackupPath) m.MinecraftPath m.BackupPath)
      m.MinecraftPath = some (moveTree (removeAll fs m.BackupPath)
        m.MinecraftPath m.BackupPath) := by
    rw [remove_of_symlink hl1, eraseKey, if_pos rfl, eraseKey_of_lookup_none hg]
  have hgb : lookup (moveTree (removeAll fs m.BackupPath) m.MinecraftPath m.BackupPath)
      m.BackupPath = some FsNode.dir := by
    have h := @lookup_moveTree_dstRel _ m.MinecraftPath _ hmem1 []
    simp only [List.append_nil] at h
    rw [h, lookup_removeAll]
    simpa [hsep.2.1] using hlive
  have hstb : statRes (moveTree (removeAll fs m.BackupPath) m.MinecraftPath m.BackupPath)
      m.BackupPath = .found FsNode.dir := statRes_of_lookup_dir hgb
  have hren : rename (moveTree (removeAll fs m.BackupPath) m.MinecraftPath m.BackupPath)
      m.BackupPath m.MinecraftPath =
      some (moveTree (moveTree (removeAll fs m.BackupPath) m.MinecraftPath m.BackupPath)
        m.BackupPath m.MinecraftPath) :=
    rename_free (sep_backup_ne_live hsep) hsep.2.1 hgb hg
  have hrd : m.RestoreDefault ((m.MinecraftPath, FsNode.symlink (m.InstancesPath ++ [a])) ::
      moveTree (removeAll fs m.BackupPath) m.MinecraftPath m.BackupPath) =
      (moveTree (moveTree (removeAll fs m.BackupPath) m.MinecraftPath m.BackupPath)
        m.BackupPath m.MinecraftPath, .ok ()) := by
    unfold Manager.RestoreDefault
    rw [hl1]
    simp only [hrm, hstb, hren]
  have hmem2 : ∀ e ∈ moveTree (removeAll fs m.BackupPath) m.MinecraftPath m.BackupPath,
      leadsTo m.MinecraftPath e.1 = false := by
    intro e he
    rcases mem_moveTree he with ⟨e2, _, h1, heq⟩ | ⟨e2, _, _, heq⟩
    · rw [heq]
      exact h1
    · rw [heq]
      cases hc : leadsTo m.MinecraftPath (m.BackupPath ++ e2.1.drop m.MinecraftPath.length)
      · rfl
      · rcases leadsTo_comparable hc (leadsTo_append m.BackupPath _) with h | h
        · have h2 := hsep.1
          rw [h] at h2
          exact Bool.noConfusion h2
        · have h2 := hsep.2.1
          rw [h] at h2
          exact Bool.noConfusion h2
    
  have hsub : subtree (moveTree (moveTree (removeAll fs m.BackupPath)
        m.MinecraftPath m.BackupPath) m.BackupPath m.MinecraftPath)
      m.MinecraftPath = subtree fs m.MinecraftPath := by
    rw [subtree_moveTree hmem2]
    exact hgb_sub
  exact ⟨_, _, hsw, hb1, hrd, hsub⟩

theorem C2_witness :
    ∃ fs₁ fs₂, (⟨["i"], ["mc"], ["b"]⟩ : Manager).SwitchInstance "a"
        [(["mc"], FsNode.dir), (["mc", "opts.txt"], FsNode.file "o"),
         (["i", "a"], FsNode.dir), (["b"], FsNode.dir),
         (["b", "stale"], FsNode.file "s")] = (fs₁, .ok ()) ∧
      subtree fs₁ ["b"] =
        subtree [(["mc"], FsNode.dir), (["mc", "opts.txt"], FsNode.file "o"),
          (["i", "a"], FsNode.dir), (["b"], FsNode.dir),
          (["b", "stale"], FsNode.file "s")] ["mc"] ∧
      (⟨["i"], ["mc"], ["b"]⟩ : Manager).RestoreDefault fs₁ = (fs₂, .ok ()) ∧
      subtree fs₂ ["mc"] =
        subtree [(["mc"], FsNode.dir), (["mc", "opts.txt"], FsNode.file "o"),
          (["i", "a"], FsNode.dir), (["b"], FsNode.dir),
          (["b", "stale"], FsNode.file "s")] ["mc"] :=
  C2_switch_restore_roundtrip ⟨["i"], ["mc"], ["b"]⟩
    [(["mc"], FsNode.dir), (["mc", "opts.txt"], FsNode.file "o"),
     (["i", "a"], FsNode.dir), (["b"], FsNode.dir), (["b", "stale"], FsNode.file "s")]
    "a" FsNode.dir (by decide) (by decide) (by decide) (by decide)

theorem restore_noop {m : Manager} {fs : FS}
    (h1 : ∀ t, ¬ lookup fs m.MinecraftPath = some (FsNode.symlink t))
    (h2 : lookup fs m.BackupPath = none) :
    m.RestoreDefault fs = (fs, .ok ()) := by
  have hstb : statRes fs m.BackupPath = .notExist := statRes_of_lookup_none h2
  unfold Manager.RestoreDefault
  cases hl : lookup fs m.MinecraftPath with
  | none => rw [hstb]
  | some n =>
    cases n with
    | symlink t => exact absurd hl (h1 t)
    | dir => rw [hstb]
    | file d => rw [hstb]

/-- C5, counterexample to the claim as stated: `RestoreDefault` is not
idempotent after a success when the backup slot holds a symbolic link to
an existing directory.  The first call renames the link onto the live
path and succeeds; the second call sees a live symbolic link, removes
it, finds no backup, and leaves the live path absent — a different
state. -/
theorem C5_restore_counterexample :
    (⟨["i"], ["mc"], ["b"]⟩ : Manager).RestoreDefault
        [(["b"], FsNode.symlink ["i", "x"]), (["i", "x"], FsNode.dir)] =
      ([(["mc"], FsNode.symlink ["i", "x"]), (["i", "x"], FsNode.dir)], .ok ()) ∧
    (⟨["i"], ["mc"], ["b"]⟩ : Manager).RestoreDefault
        [(["mc"], FsNode.symlink ["i", "x"]), (["i", "x"], FsNode.dir)] =
      ([(["i", "x"], FsNode.dir)], .ok ()) ∧
    ¬ ([(["i", "x"], FsNode.dir)] : FS) =
      [(["mc"], FsNode.symlink ["i", "x"]), (["i", "x"], FsNode.dir)] := by
  refine ⟨by decide, by decide, by decide⟩

/-- C5, amended: when the backup slot does not hold a symbolic link (the
only content the tool itself ever puts there is a renamed real
directory), and the live path is a symbolic link or absent,
`RestoreDefault` removes the live link, renames the backup slot onto the
live path exactly when the backup slot exists, succeeds, and a second
call immediately afterwards changes nothing and succeeds. -/
theorem C5_restore_amended (m : Manager) (fs : FS)
    (hsep : m.Sep)
    (horph : ∀ e ∈ fs, leadsTo m.MinecraftPath e.1 = true → e.1 = m.MinecraftPath)
    (hlive : lookup fs m.MinecraftPath = none ∨
      ∃ t, lookup fs m.MinecraftPath = some (FsNode.symlink t))
    (hb : ∀ t, ¬ lookup fs m.BackupPath = some (FsNode.symlink t)) :
    ∃ fs', m.RestoreDefault fs = (fs', .ok ()) ∧
      (∀ n, lookup fs m.BackupPath = some n →
        subtree fs' m.MinecraftPath = subtree fs m.BackupPath ∧
        lookup fs' m.BackupPath = none) ∧
      (lookup fs m.BackupPath = none →
        lookup fs' m.MinecraftPath = none ∧
        ∀ q, ¬ q = m.MinecraftPath → lookup fs' q = lookup fs q) ∧
      m.RestoreDefault fs' = (fs', .ok ()) := by
  have hbl : ¬ m.BackupPath = m.MinecraftPath := sep_backup_ne_live hsep
  cases hB : lookup fs m.BackupPath with
  | some bn =>
    have hns : bn.isSymlink = false := by
      cases bn with
      | symlink t => exact absurd hB (hb t)
      | dir => rfl
      | file d => rfl
    rcases hlive with hl | ⟨t, hl⟩
    · -- live absent, backup present: rename backup onto live
      have hmemfs : ∀ e ∈ fs, leadsTo m.MinecraftPath e.1 = false := by
        intro e he
        cases hc : leadsTo m.MinecraftPath e.1
        · rfl
        · have := horph e he hc
          have h2 := (lookup_none_iff fs m.MinecraftPath).1 hl e he
          exact absurd this h2
      have hstb : statRes fs m.BackupPath = .found bn := statRes_of_nonlink hB hns
      have hren : rename fs m.BackupPath m.MinecraftPath =
          some (moveTree fs m.BackupPath m.MinecraftPath) :=
        rename_free hbl hsep.2.1 hB hl
      have hrd : m.RestoreDefault fs =
          (moveTree fs m.BackupPath m.MinecraftPath, .ok ()) := by
        unfold Manager.RestoreDefault
        rw [hl, hstb, hren]
      have hfl : lookup (moveTree fs m.BackupPath m.MinecraftPath) m.MinecraftPath =
          some bn := by
        have h := @lookup_moveTree_dstRel _ m.BackupPath m.MinecraftPath hmemfs []
        simp only [List.append_nil] at h
        rw [h, hB]
      have hfb : lookup (moveTree fs m.BackupPath m.MinecraftPath) m.BackupPath = none :=
        lookup_moveTree_gone (leadsTo_refl _) hsep.1
      refine ⟨moveTree fs m.BackupPath m.MinecraftPath, hrd, ?_, ?_, ?_⟩
      · intro n hn
        cases Option.some.inj hn
        exact ⟨subtree_moveTree hmemfs, hfb⟩
      · intro hn
        exact Option.noConfusion hn
      · refine restore_noop ?_ hfb
        intro t' hc
        rw [hfl] at hc
        cases Option.some.inj hc
        simp [FsNode.isSymlink] at hns
    · -- live symbolic link, backup present: remove the link, then rename
      have hrm : remove fs m.MinecraftPath = some (eraseKey fs m.MinecraftPath) :=
        remove_of_symlink hl
      have hgl : lookup (eraseKey fs m.MinecraftPath) m.MinecraftPath = none := by
        rw [lookup_eraseKey, if_pos rfl]
      have hglb : lookup (eraseKey fs m.MinecraftPath) m.BackupPath = some bn := by
        rw [lookup_eraseKey, if_neg hbl, hB]
      have hmemg : ∀ e ∈ eraseKey fs m.MinecraftPath, leadsTo m.MinecraftPath e.1 = false := by
        intro e he
        obtain ⟨hef, hne⟩ := mem_eraseKey he
        cases hc : leadsTo m.MinecraftPath e.1
        · rfl
        · exact absurd (horph e hef hc) hne
      have hstb : statRes (eraseKey fs m.MinecraftPath) m.BackupPath = .found bn :=
        statRes_of_nonlink hglb hns
      have hren : rename (eraseKey fs m.MinecraftPath) m.BackupPath m.MinecraftPath =
          some (moveTree (eraseKey fs m.MinecraftPath) m.BackupPath m.MinecraftPath) :=
        rename_free hbl hsep.2.1 hglb hgl
      have hrd : m.RestoreDefault fs =
          (moveTree (eraseKey fs m.MinecraftPath) m.BackupPath m.MinecraftPath, .ok ()) := by
        unfold Manager.RestoreDefault
        rw [hl]
        simp only [hrm, hstb, hren]
      have hfl : lookup (moveTree (eraseKey fs m.MinecraftPath) m.BackupPath m.MinecraftPath)
          m.MinecraftPath = some bn := by
        have h := @lookup_moveTree_dstRel _ m.BackupPath m.MinecraftPath hmemg []
        simp only [List.append_nil] at h
        rw [h, hglb]
      have hfb : lookup (moveTree (eraseKey fs m.MinecraftPath) m.BackupPath m.MinecraftPath)
          m.BackupPath = none :=
        lookup_moveTree_gone (leadsTo_refl _) hsep.1
      refine ⟨moveTree (eraseKey fs m.MinecraftPath) m.BackupPath m.MinecraftPath,
        hrd, ?_, ?_, ?_⟩
      · intro n hn
        cases Option.some.inj hn
        refine ⟨?_, hfb⟩
        rw [subtree_moveTree hmemg]
        exact subtree_eraseKey hsep.2.1
      · intro hn
        exact Option.noConfusion hn
      · refine restore_noop ?_ hfb
        intro t' hc
        rw [hfl] at hc
        cases Option.some.inj hc
        simp [FsNode.isSymlink] at hns
  | none =>
    have hstb : statRes fs m.BackupPath = .notExist := statRes_of_lookup_none hB
    rcases hlive with hl | ⟨t, hl⟩
    · -- nothing to do at all
      have hrd : m.RestoreDefault fs = (fs, .ok ()) :=
        restore_noop (fun t hc => by rw [hl] at hc; exact Option.noConfusion hc) hB
      refine ⟨fs, hrd, ?_, ?_, hrd⟩
      · intro n hn
        exact Option.noConfusion hn
      · intro _
        exact ⟨hl, fun q _ => rfl⟩
    · -- live link removed, no backup to restore
      have hrm : remove fs m.MinecraftPath = some (eraseKey fs m.MinecraftPath) :=
        remove_of_symlink hl
      have hgl : lookup (eraseKey fs m.MinecraftPath) m.MinecraftPath = none := by
        rw [lookup_eraseKey, if_pos rfl]
      have hglb : lookup (eraseKey fs m.MinecraftPath) m.BackupPath = none := by
        rw [lookup_eraseKey, if_neg (sep_backup_ne_live hsep), hB]
      have hstb2 : statRes (eraseKey fs m.MinecraftPath) m.BackupPath = .notExist :=
        statRes_of_lookup_none hglb
      have hrd : m.RestoreDefault fs = (eraseKey fs m.MinecraftPath, .ok ()) := by
        unfold Manager.RestoreDefault
        rw [hl]
        simp only [hrm, hstb2]
      refine ⟨eraseKey fs m.MinecraftPath, hrd, ?_, ?_, ?_⟩
      · intro n hn
        exact Option.noConfusion hn
      · intro _
        refine ⟨hgl, fun q hq => ?_⟩
        rw [lookup_eraseKey, if_neg (fun h => hq h)]
      · exact restore_noop
          (fun t' hc => by rw [hgl] at hc; exact Option.noConfusion hc) hglb

theorem C5_witness :
    ∃ fs', (⟨["i"], ["mc"], ["b"]⟩ : Manager).RestoreDefault
        [(["mc"], FsNode.symlink ["i", "a"]), (["b"], FsNode.dir),
         (["b", "opts.txt"], FsNode.file "o"), (["i", "a"], FsNode.dir)] =
        (fs', .ok ()) ∧
      (∀ n, lookup [(["mc"], FsNode.symlink ["i", "a"]), (["b"], FsNode.dir),
          (["b", "opts.txt"], FsNode.file "o"), (["i", "a"], FsNode.dir)] ["b"] = some n →
        subtree fs' ["mc"] =
          subtree [(["mc"], FsNode.symlink ["i", "a"]), (["b"], FsNode.dir),
            (["b", "opts.txt"], FsNode.file "o"), (["i", "a"], FsNode.dir)] ["b"] ∧
        lookup fs' ["b"] = none) ∧
      (lookup [(["mc"], FsNode.symlink ["i", "a"]), (["b"], FsNode.dir),
          (["b", "opts.txt"], FsNode.file "o"), (["i", "a"], FsNode.dir)] ["b"] = none →
        lookup fs' ["mc"] = none ∧
        ∀ q, ¬ q = ["mc"] →
          lookup fs' q = lookup [(["mc"], FsNode.symlink ["i", "a"]), (["b"], FsNode.dir),
            (["b", "opts.txt"], FsNode.file "o"), (["i", "a"], FsNode.dir)] q) ∧
      (⟨["i"], ["mc"], ["b"]⟩ : Manager).RestoreDefault fs' = (fs', .ok ()) :=
  C5_restore_amended ⟨["i"], ["mc"], ["b"]⟩
    [(["mc"], FsNode.symlink ["i", "a"]), (["b"], FsNode.dir),
     (["b", "opts.txt"], FsNode.file "o"), (["i", "a"], FsNode.dir)]
    (by decide) (by decide) (Or.inr ⟨["i", "a"], by decide⟩)
    (fun t hc => by
      have h : lookup [(["mc"], FsNode.symlink ["i", "a"]), (["b"], FsNode.dir),
          (["b", "opts.txt"], FsNode.file "o"), (["i", "a"], FsNode.dir)] ["b"] =
          some FsNode.dir := by decide
      rw [h] at hc
      exact FsNode.noConfusion (Option.some.inj hc))

/-- C7: `CreateInstance` fails with the empty-name error on an empty
name and with the already-exists error when the instance path already
stats successfully; on any successful run the five fixed-name
subdirectories (mods, config, saves, resourcepacks, shaderpacks) exist
in the new instance directory, having been created after seeding. -/
theorem C7_create_errors_subdirs (m : Manager) (name : String) (fs : FS) :
    (name = "" → m.CreateInstance name fs = (fs, .error .emptyName)) ∧
    (∀ n, ¬ name = "" → statRes fs (m.InstancesPath ++ [name]) = .found n →
      m.CreateInstance name fs = (fs, .error (.alreadyExists name))) ∧
    (∀ fs', m.CreateInstance name fs = (fs', .ok ()) →
      ∀ d ∈ essentialDirs,
        statRes fs' (m.InstancesPath ++ [name] ++ [d]) = .found .dir) := by
  refine ⟨?_, ?_, ?_⟩
  · intro h
    unfold Manager.CreateInstance
    rw [if_pos h]
  · intro n h hst
    unfold Manager.CreateInstance
    rw [if_neg h, hst]
  · intro fs' h d hd
    unfold Manager.CreateInstance at h
    by_cases hname : name = ""
    · rw [if_pos hname] at h
      simp [Prod.ext_iff] at h
    · rw [if_neg hname] at h
      repeat' split at h
      all_goals first
        | exact makeEssentialDirs_post h d hd
        | simp [Prod.ext_iff] at h

theorem C7_witness :
    ∃ fs', (⟨["i"], ["mc"], ["b"]⟩ : Manager).CreateInstance "a"
        [(["i"], FsNode.dir)] = (fs', .ok ()) ∧
      ∀ d ∈ essentialDirs, statRes fs' (["i", "a"] ++ [d]) = .found .dir := by
  have h := C7_create_errors_subdirs (⟨["i"], ["mc"], ["b"]⟩ : Manager) "a"
    [(["i"], FsNode.dir)]
  refine ⟨[(["i", "a", "shaderpacks"], FsNode.dir), (["i", "a", "resourcepacks"], FsNode.dir),
    (["i", "a", "saves"], FsNode.dir), (["i", "a", "config"], FsNode.dir),
    (["i", "a", "mods"], FsNode.dir), (["i", "a"], FsNode.dir), (["i"], FsNode.dir)],
    by decide, ?_⟩
  intro d hd
  exact h.2.2 _ (by decide) d hd

theorem listInstances_mem {m : Manager} {fs : FS} {nm : String}
    (hroot : lookup fs m.InstancesPath = some FsNode.dir)
    (hinst : lookup fs (m.InstancesPath ++ [nm]) = some FsNode.dir) :
    ∃ l, m.ListInstances fs = .ok l ∧
      ∃ i ∈ l, i.Name = nm ∧
        i.IsActive = decide (nm = m.GetActiveInstance fs) := by
  have hne : ¬ statRes fs m.InstancesPath = .notExist := by
    rw [statRes_of_lookup_dir hroot]
    exact fun hc => StatR.noConfusion hc
  have hres : resolveFuel 40 fs m.InstancesPath = some m.InstancesPath :=
    resolveFuel_of_nonlink (by omega) hroot rfl
  have hrd : readDirEntries fs m.InstancesPath =
      some ((childNames fs m.InstancesPath).filterMap (fun nm' =>
        (lookup fs (m.InstancesPath ++ [nm'])).map (fun n => (nm', n)))) := by
    rw [readDirEntries, hres]
    show (match lookup fs m.InstancesPath with
      | some FsNode.dir =>
        some ((childNames fs m.InstancesPath).filterMap (fun nm' =>
          (lookup fs (m.InstancesPath ++ [nm'])).map (fun n => (nm', n))))
      | _ => none) = _
    rw [hroot]
  have hnm : nm ∈ childNames fs m.InstancesPath := by
    rw [childNames, mem_sortStrs]
    apply mem_dedupStrs
    have := mem_childRaw (p := m.InstancesPath) (lookup_mem hinst) (by simp) (by simp)
    rwa [pathBase_concat] at this
  unfold Manager.ListInstances
  rw [if_neg hne, hrd]
  refine ⟨_, rfl, ?_⟩
  simp only [mem_sortInstances]
  refine ⟨⟨nm, m.InstancesPath ++ [nm],
    countJarFiles fs ((m.InstancesPath ++ [nm]) ++ ["mods"]),
    countFiles fs ((m.InstancesPath ++ [nm]) ++ ["config"]),
    countDirectories fs ((m.InstancesPath ++ [nm]) ++ ["saves"]),
    decide (nm = m.GetActiveInstance fs)⟩, ?_, rfl, rfl⟩
  refine List.mem_filterMap.2 ⟨(nm, FsNode.dir), ?_, rfl⟩
  refine List.mem_filterMap.2 ⟨nm, hnm, ?_⟩
  rw [hinst]
  rfl

/-- C9: with an instance directory literally named `default`, whenever
the live path is not a symbolic link, `GetActiveInstance` returns the
sentinel `"default"`; consequently `ListInstances` marks that instance
active and `DeleteInstance "default"` is refused with the
active-instance error even though no symlink points at it — the sentinel
collides with a legitimate instance name. -/
theorem C9_default_collision (m : Manager) (fs : FS)
    (hroot : lookup fs m.InstancesPath = some FsNode.dir)
    (hinst : lookup fs (m.InstancesPath ++ ["default"]) = some FsNode.dir)
    (hlive : ∀ t, ¬ lookup fs m.MinecraftPath = some (FsNode.symlink t)) :
    m.GetActiveInstance fs = "default" ∧
    m.DeleteInstance "default" fs = (fs, .error (.activeInstance "default")) ∧
    ∃ l, m.ListInstances fs = .ok l ∧
      ∃ i ∈ l, i.Name = "default" ∧ i.IsActive = true := by
  have hga : m.GetActiveInstance fs = "default" := by
    unfold Manager.GetActiveInstance
    cases hl : lookup fs m.MinecraftPath with
    | none => rfl
    | some n =>
      cases n with
      | symlink t => exact absurd hl (hlive t)
      | dir => rfl
      | file d => rfl
  have hdel : m.DeleteInstance "default" fs =
      (fs, .error (.activeInstance "default")) := by
    unfold Manager.DeleteInstance
    rw [if_neg (show ¬ "default" = "" by decide)]
    rw [if_neg (by
      rw [statRes_of_lookup_dir hinst]
      exact fun hc => StatR.noConfusion hc)]
    rw [if_pos hga]
  obtain ⟨l, hl, i, hi, hnm, hact⟩ := listInstances_mem hroot hinst
  refine ⟨hga, hdel, l, hl, i, hi, hnm, ?_⟩
  rw [hact, hga]
  decide

theorem C9_witness :
    (⟨["i"], ["mc"], ["b"]⟩ : Manager).GetActiveInstance
        [(["i"], FsNode.dir), (["i", "default"], FsNode.dir), (["mc"], FsNode.dir)] =
      "default" ∧
    (⟨["i"], ["mc"], ["b"]⟩ : Manager).DeleteInstance "default"
        [(["i"], FsNode.dir), (["i", "default"], FsNode.dir), (["mc"], FsNode.dir)] =
      ([(["i"], FsNode.dir), (["i", "default"], FsNode.dir), (["mc"], FsNode.dir)],
       .error (.activeInstance "default")) ∧
    ∃ l, (⟨["i"], ["mc"], ["b"]⟩ : Manager).ListInstances
        [(["i"], FsNode.dir), (["i", "default"], FsNode.dir), (["mc"], FsNode.dir)] =
        .ok l ∧
      ∃ i ∈ l, i.Name = "default" ∧ i.IsActive = true :=
  C9_default_collision ⟨["i"], ["mc"], ["b"]⟩
    [(["i"], FsNode.dir), (["i", "default"], FsNode.dir), (["mc"], FsNode.dir)]
    (by decide) (by decide)
    (fun t hc => by
      have h : lookup [(["i"], FsNode.dir), (["i", "default"], FsNode.dir),
          (["mc"], FsNode.dir)] ["mc"] = some FsNode.dir := by decide
      rw [h] at hc
      exact FsNode.noConfusion (Option.some.inj hc))

/-- C4, counterexample to the claim as stated: creating the valid, fresh
name `"default"` while the live path is a real directory containing
`mods/x.jar` seeds the new instance with that jar and collides with the
active-name sentinel, so the single listed entry has `ModCount = 1` and
`IsActive = true` — not all-zero counts with an inactive flag. -/
theorem C4_create_list_counterexample :
    ((⟨["i"], ["mc"], ["b"]⟩ : Manager).CreateInstance "default"
        [(["mc"], FsNode.dir), (["mc", "mods"], FsNode.dir),
         (["mc", "mods", "x.jar"], FsNode.file "X"), (["i"], FsNode.dir)]).2 =
      .ok () ∧
    (⟨["i"], ["mc"], ["b"]⟩ : Manager).ListInstances
        ((⟨["i"], ["mc"], ["b"]⟩ : Manager).CreateInstance "default"
          [(["mc"], FsNode.dir), (["mc", "mods"], FsNode.dir),
           (["mc", "mods", "x.jar"], FsNode.file "X"), (["i"], FsNode.dir)]).1 =
      .ok [{ Name := "default", Path := ["i", "default"], ModCount := 1,
             ConfigCount := 0, SaveCount := 0, IsActive := true }] := by
  refine ⟨by decide, by decide⟩

theorem childRaw_nil_of_no_strict (fs : FS) (q : Path)
    (h : ∀ e ∈ fs, ¬ (e.1.dropLast = q ∧ ¬ e.1 = [])) : childRaw fs q = [] := by
  induction fs with
  | nil => rfl
  | cons e fs ih =>
    rw [childRaw, if_neg (h e (List.mem_cons_self _ _))]
    exact ih (fun e' he' => h e' (List.mem_cons_of_mem _ he'))

theorem filter_name_through (f : String → Option (String × FsNode))
    (g : String × FsNode → Option Instance) (name : String)
    (hf : ∀ nm e, f nm = some e → e.1 = nm)
    (hg : ∀ e i, g e = some i → i.Name = e.1) :
    ∀ names : List String,
      ((names.filterMap f).filterMap g).filter (fun i => decide (i.Name = name)) =
        ((names.filter (fun nm => decide (nm = name))).filterMap f).filterMap g := by
  intro names
  induction names with
  | nil => rfl
  | cons nm names ih =>
    rw [List.filterMap_cons, List.filter_cons]
    by_cases hn : nm = name
    · subst hn
      cases hfe : f nm with
      | none => simp [List.filterMap_cons, hfe, ih]
      | some e =>
        have he1 : e.1 = nm := hf nm e hfe
        rw [List.filterMap_cons]
        cases hge : g e with
        | none => simp [List.filterMap_cons, hfe, hge, ih]
        | some i =>
          have hi1 : i.Name = e.1 := hg e i hge
          simp [List.filterMap_cons, hfe, hge, hi1, he1, ih]
    · cases hfe : f nm with
      | none => simp [List.filterMap_cons, hfe, hn, ih]
      | some e =>
        have he1 : e.1 = nm := hf nm e hfe
        rw [List.filterMap_cons]
        cases hge : g e with
        | none => simp [List.filterMap_cons, hfe, hge, hn, ih]
        | some i =>
          have hi1 : ¬ i.Name = name := by
            rw [hg e i hge, he1]
            exact hn
          simp [List.filterMap_cons, hfe, hge, hi1, hn, ih]

/-- C4 (amended): creating an instance and then listing. As stated in the
spec the claim fails (see the counterexample), because a name equal to the
sentinel "default" is reported active whenever the live path is not a
symbolic link, and because seeding from an existing live directory copies
jar files and sub-entries so the reported counts need not be zero. Under
the amended hypotheses — the name is non-empty and differs from "default",
the instances root is a real directory, nothing exists at the live path
(so no seeding occurs), and nothing exists at or below the new instance
path — `CreateInstance` succeeds, creates the five essential
subdirectories, and a subsequent `ListInstances` reports the new instance
with zero mod, config and save counts and `IsActive = false`. -/
theorem C4_create_list_amended (m : Manager) (name : String) (fs : FS)
    (hsep : m.Sep) (hname : ¬ name = "") (hdef : ¬ name = "default")
    (hroot : lookup fs m.InstancesPath = some FsNode.dir)
    (hlive : lookup fs m.MinecraftPath = none)
    (hfresh : ∀ e ∈ fs, leadsTo (m.InstancesPath ++ [name]) e.1 = false) :
    ∃ fs', m.CreateInstance name fs = (fs', .ok ()) ∧
      (∀ d ∈ essentialDirs,
        lookup fs' (m.InstancesPath ++ [name] ++ [d]) = some FsNode.dir) ∧
      ∃ l, m.ListInstances fs' = .ok l ∧
        l.filter (fun i => decide (i.Name = name)) =
          [{ Name := name, Path := m.InstancesPath ++ [name], ModCount := 0,
             ConfigCount := 0, SaveCount := 0, IsActive := false }] := by
  set iP := m.InstancesPath ++ [name] with hiPdef
  -- basic path disequalities
  have hneq : ∀ d : String, ¬ iP = iP ++ [d] := by
    intro d h
    have := congrArg List.length h
    simp at this
  have hneqRev : ∀ d : String, ¬ iP ++ [d] = iP := fun d h => hneq d h.symm
  have hdiff : ∀ d' d : String, ¬ d' = d → ¬ iP ++ [d'] = iP ++ [d] := by
    intro d' d hne h
    have h2 := List.append_cancel_left h
    injection h2 with h3
    exact hne h3
  have hbase : ∀ q : Path, leadsTo iP q = true → lookup fs q = none := by
    intro q hq
    refine (lookup_none_iff fs q).2 (fun e he heq => ?_)
    have h := hfresh e he
    rw [heq, hq] at h
    exact Bool.noConfusion h
  have hiPleads : ∀ d : String, leadsTo iP (iP ++ [d]) = true :=
    fun d => leadsTo_append iP [d]
  have hiPlook : lookup fs iP = none := hbase iP (leadsTo_refl iP)
  have hstIP : statRes fs iP = .notExist := statRes_of_lookup_none hiPlook
  have hrootStat : statRes fs m.InstancesPath = .found .dir :=
    statRes_of_lookup_dir hroot
  have hmk1 : mkdirAll fs m.InstancesPath = some fs := mkdirAll_of_found_dir hrootStat
  have hmk2 : mkdirAll fs iP = some ((iP, FsNode.dir) :: fs) :=
    mkdirAll_step_new hiPlook hrootStat
  have hiPnotLive : ¬ iP = m.MinecraftPath := (sep_instPath_not_live hsep name).2
  have hlive2 : lookup ((iP, FsNode.dir) :: fs) m.MinecraftPath = none := by
    rw [lookup_cons, if_neg hiPnotLive, hlive]
  -- the five fixed subdirectories
  have hstep : ∀ (g : FS) (d : String),
      lookup g (iP ++ [d]) = none → statRes g iP = .found .dir →
      mkdirAll g (iP ++ [d]) = some ((iP ++ [d], FsNode.dir) :: g) :=
    fun g d h1 h2 => mkdirAll_step_new h1 h2
  have hkA : mkdirAll ((iP, FsNode.dir) :: fs) (iP ++ ["mods"]) =
      some ((iP ++ ["mods"], FsNode.dir) :: (iP, FsNode.dir) :: fs) := by
    refine hstep _ _ ?_ ?_
    · rw [lookup_cons, if_neg (hneq "mods")]
      exact hbase _ (hiPleads "mods")
    · exact statRes_of_lookup_dir (by rw [lookup_cons, if_pos rfl])
  have hkB : mkdirAll ((iP ++ ["mods"], FsNode.dir) :: (iP, FsNode.dir) :: fs)
      (iP ++ ["config"]) =
      some ((iP ++ ["config"], FsNode.dir) :: (iP ++ ["mods"], FsNode.dir) ::
        (iP, FsNode.dir) :: fs) := by
    refine hstep _ _ ?_ ?_
    · rw [lookup_cons, if_neg (hdiff "mods" "config" (by decide)),
        lookup_cons, if_neg (hneq "config")]
      exact hbase _ (hiPleads "config")
    · exact statRes_of_lookup_dir (by
        rw [lookup_cons, if_neg (hneqRev "mods"), lookup_cons, if_pos rfl])
  have hkC : mkdirAll ((iP ++ ["config"], FsNode.dir) :: (iP ++ ["mods"], FsNode.dir) ::
      (iP, FsNode.dir) :: fs) (iP ++ ["saves"]) =
      some ((iP ++ ["saves"], FsNode.dir) :: (iP ++ ["config"], FsNode.dir) ::
        (iP ++ ["mods"], FsNode.dir) :: (iP, FsNode.dir) :: fs) := by
    refine hstep _ _ ?_ ?_
    · rw [lookup_cons, if_neg (hdiff "config" "saves" (by decide)),
        lookup_cons, if_neg (hdiff "mods" "saves" (by decide)),
        lookup_cons, if_neg (hneq "saves")]
      exact hbase _ (hiPleads "saves")
    · exact statRes_of_lookup_dir (by
        rw [lookup_cons, if_neg (hneqRev "config"), lookup_cons, if_neg (hneqRev "mods"),
          lookup_cons, if_pos rfl])
  have hkD : mkdirAll ((iP ++ ["saves"], FsNode.dir) :: (iP ++ ["config"], FsNode.dir) ::
      (iP ++ ["mods"], FsNode.dir) :: (iP, FsNode.dir) :: fs) (iP ++ ["resourcepacks"]) =
      some ((iP ++ ["resourcepacks"], FsNode.dir) :: (iP ++ ["saves"], FsNode.dir) ::
        (iP ++ ["config"], FsNode.dir) :: (iP ++ ["mods"], FsNode.dir) ::
        (iP, FsNode.dir) :: fs) := by
    refine hstep _ _ ?_ ?_
    · rw [lookup_cons, if_neg (hdiff "saves" "resourcepacks" (by decide)),
        lookup_cons, if_neg (hdiff "config" "resourcepacks" (by decide)),
        lookup_cons, if_neg (hdiff "mods" "resourcepacks" (by decide)),
        lookup_cons, if_neg (hneq "resourcepacks")]
      exact hbase _ (hiPleads "resourcepacks")
    · exact statRes_of_lookup_dir (by
        rw [lookup_cons, if_neg (hneqRev "saves"), lookup_cons, if_neg (hneqRev "config"),
          lookup_cons, if_neg (hneqRev "mods"), lookup_cons, if_pos rfl])
  have hkE : mkdirAll ((iP ++ ["resourcepacks"], FsNode.dir) ::
      (iP ++ ["saves"], FsNode.dir) :: (iP ++ ["config"], FsNode.dir) ::
      (iP ++ ["mods"], FsNode.dir) :: (iP, FsNode.dir) :: fs) (iP ++ ["shaderpacks"]) =
      some ((iP ++ ["shaderpacks"], FsNode.dir) :: (iP ++ ["resourcepacks"], FsNode.dir) ::
        (iP ++ ["saves"], FsNode.dir) :: (iP ++ ["config"], FsNode.dir) ::
        (iP ++ ["mods"], FsNode.dir) :: (iP, FsNode.dir) :: fs) := by
    refine hstep _ _ ?_ ?_
    · rw [lookup_cons, if_neg (hdiff "resourcepacks" "shaderpacks" (by decide)),
        lookup_cons, if_neg (hdiff "saves" "shaderpacks" (by decide)),
        lookup_cons, if_neg (hdiff "config" "shaderpacks" (by decide)),
        lookup_cons, if_neg (hdiff "mods" "shaderpacks" (by decide)),
        lookup_cons, if_neg (hneq "shaderpacks")]
      exact hbase _ (hiPleads "shaderpacks")
    · exact statRes_of_lookup_dir (by
        rw [lookup_cons, if_neg (hneqRev "resourcepacks"),
          lookup_cons, if_neg (hneqRev "saves"), lookup_cons, if_neg (hneqRev "config"),
          lookup_cons, if_neg (hneqRev "mods"), lookup_cons, if_pos rfl])
  have hmed : makeEssentialDirs iP ((iP, FsNode.dir) :: fs) essentialDirs =
      ((iP ++ ["shaderpacks"], FsNode.dir) :: (iP ++ ["resourcepacks"], FsNode.dir) ::
        (iP ++ ["saves"], FsNode.dir) :: (iP ++ ["config"], FsNode.dir) ::
        (iP ++ ["mods"], FsNode.dir) :: (iP, FsNode.dir) :: fs, .ok ()) := by
    simp only [essentialDirs, makeEssentialDirs, hkA, hkB, hkC, hkD, hkE]
  have hcreate : m.CreateInstance name fs =
      ((iP ++ ["shaderpacks"], FsNode.dir) :: (iP ++ ["resourcepacks"], FsNode.dir) ::
        (iP ++ ["saves"], FsNode.dir) :: (iP ++ ["config"], FsNode.dir) ::
        (iP ++ ["mods"], FsNode.dir) :: (iP, FsNode.dir) :: fs, .ok ()) := by
    unfold Manager.CreateInstance
    rw [if_neg hname, ← hiPdef, hstIP]
    simp only [hmk1, hmk2, hlive2, hmed]
  set fsE := (iP ++ ["shaderpacks"], FsNode.dir) :: (iP ++ ["resourcepacks"], FsNode.dir) ::
    (iP ++ ["saves"], FsNode.dir) :: (iP ++ ["config"], FsNode.dir) ::
    (iP ++ ["mods"], FsNode.dir) :: (iP, FsNode.dir) :: fs with hfsEdef
  have hdl : ∀ d : String, (iP ++ [d]).dropLast = iP := fun d => by simp
  have hlenr0 : ¬ iP = m.InstancesPath := by
    intro h
    have h2 := congrArg List.length h
    rw [hiPdef] at h2
    simp at h2
  have hlenr1 : ∀ d : String, ¬ iP ++ [d] = m.InstancesPath := by
    intro d h
    have h2 := congrArg List.length h
    rw [hiPdef] at h2
    simp at h2
  have hd_live : ∀ d : String, ¬ iP ++ [d] = m.MinecraftPath := by
    intro d h
    have hlt : leadsTo m.InstancesPath (iP ++ [d]) = true := by
      rw [hiPdef, List.append_assoc]
      exact leadsTo_append _ _
    rw [h] at hlt
    rw [hsep.2.2.1] at hlt
    exact Bool.noConfusion hlt
  have hLshader : lookup fsE (iP ++ ["shaderpacks"]) = some FsNode.dir := by
    rw [hfsEdef, lookup_cons, if_pos rfl]
  have hLresource : lookup fsE (iP ++ ["resourcepacks"]) = some FsNode.dir := by
    rw [hfsEdef, lookup_cons, if_neg (hdiff "shaderpacks" "resourcepacks" (by decide)),
      lookup_cons, if_pos rfl]
  have hLsaves : lookup fsE (iP ++ ["saves"]) = some FsNode.dir := by
    rw [hfsEdef, lookup_cons, if_neg (hdiff "shaderpacks" "saves" (by decide)),
      lookup_cons, if_neg (hdiff "resourcepacks" "saves" (by decide)),
      lookup_cons, if_pos rfl]
  have hLconfig : lookup fsE (iP ++ ["config"]) = some FsNode.dir := by
    rw [hfsEdef, lookup_cons, if_neg (hdiff "shaderpacks" "config" (by decide)),
      lookup_cons, if_neg (hdiff "resourcepacks" "config" (by decide)),
      lookup_cons, if_neg (hdiff "saves" "config" (by decide)),
      lookup_cons, if_pos rfl]
  have hLmods : lookup fsE (iP ++ ["mods"]) = some FsNode.dir := by
    rw [hfsEdef, lookup_cons, if_neg (hdiff "shaderpacks" "mods" (by decide)),
      lookup_cons, if_neg (hdiff "resourcepacks" "mods" (by decide)),
      lookup_cons, if_neg (hdiff "saves" "mods" (by decide)),
      lookup_cons, if_neg (hdiff "config" "mods" (by decide)),
      lookup_cons, if_pos rfl]
  have hLiP : lookup fsE iP = some FsNode.dir := by
    rw [hfsEdef, lookup_cons, if_neg (hneqRev "shaderpacks"),
      lookup_cons, if_neg (hneqRev "resourcepacks"),
      lookup_cons, if_neg (hneqRev "saves"), lookup_cons, if_neg (hneqRev "config"),
      lookup_cons, if_neg (hneqRev "mods"), lookup_cons, if_pos rfl]
  have hLroot : lookup fsE m.InstancesPath = some FsNode.dir := by
    rw [hfsEdef, lookup_cons, if_neg (hlenr1 "shaderpacks"),
      lookup_cons, if_neg (hlenr1 "resourcepacks"),
      lookup_cons, if_neg (hlenr1 "saves"), lookup_cons, if_neg (hlenr1 "config"),
      lookup_cons, if_neg (hlenr1 "mods"), lookup_cons, if_neg hlenr0, hroot]
  have hLlive : lookup fsE m.MinecraftPath = none := by
    rw [hfsEdef, lookup_cons, if_neg (hd_live "shaderpacks"),
      lookup_cons, if_neg (hd_live "resourcepacks"),
      lookup_cons, if_neg (hd_live "saves"), lookup_cons, if_neg (hd_live "config"),
      lookup_cons, if_neg (hd_live "mods"), lookup_cons, if_neg hiPnotLive, hlive]
  have hgaE : m.GetActiveInstance fsE = "default" := by
    unfold Manager.GetActiveInstance
    rw [hLlive]
  have hcrawE : childRaw fsE m.InstancesPath = name :: childRaw fs m.InstancesPath := by
    rw [hfsEdef]
    rw [childRaw, if_neg (fun hc => hlenr0 (by
      have h2 := hc.1; rwa [hdl "shaderpacks"] at h2))]
    rw [childRaw, if_neg (fun hc => hlenr0 (by
      have h2 := hc.1; rwa [hdl "resourcepacks"] at h2))]
    rw [childRaw, if_neg (fun hc => hlenr0 (by
      have h2 := hc.1; rwa [hdl "saves"] at h2))]
    rw [childRaw, if_neg (fun hc => hlenr0 (by
      have h2 := hc.1; rwa [hdl "config"] at h2))]
    rw [childRaw, if_neg (fun hc => hlenr0 (by
      have h2 := hc.1; rwa [hdl "mods"] at h2))]
    rw [childRaw, if_pos ⟨by rw [hiPdef]; simp, by rw [hiPdef]; simp⟩]
    rw [hiPdef, pathBase_concat]
  have hchNil : ∀ d0 : String, childRaw fsE (iP ++ [d0]) = [] := by
    intro d0
    rw [hfsEdef]
    refine childRaw_nil_of_no_strict _ _ ?_
    intro e he hc
    have hstep2 : ∀ d : String, ¬ (iP ++ [d]).dropLast = iP ++ [d0] := by
      intro d h
      rw [hdl d] at h
      exact hneq d0 h
    simp only [List.mem_cons] at he
    rcases he with rfl | rfl | rfl | rfl | rfl | rfl | he
    · exact hstep2 "shaderpacks" hc.1
    · exact hstep2 "resourcepacks" hc.1
    · exact hstep2 "saves" hc.1
    · exact hstep2 "config" hc.1
    · exact hstep2 "mods" hc.1
    · have h2 := congrArg List.length hc.1
      rw [hiPdef] at h2
      simp at h2
    · have hlt : leadsTo (iP ++ [d0]) e.1 = true := by
        have h3 := leadsTo_dropLast e.1
        rwa [hc.1] at h3
      have h4 : leadsTo iP e.1 = true := leadsTo_trans (hiPleads d0) hlt
      have h5 := hfresh e he
      rw [h4] at h5
      exact Bool.noConfusion h5
  have hresMods : readDirEntries fsE (iP ++ ["mods"]) = some [] := by
    rw [readDirEntries, resolveFuel_of_nonlink (by omega) hLmods rfl]
    show (match lookup fsE (iP ++ ["mods"]) with
      | some FsNode.dir =>
        some ((childNames fsE (iP ++ ["mods"])).filterMap (fun nm =>
          (lookup fsE ((iP ++ ["mods"]) ++ [nm])).map (fun n => (nm, n))))
      | _ => none) = some []
    rw [hLmods, childNames, hchNil "mods"]
    rfl
  have hresConfig : readDirEntries fsE (iP ++ ["config"]) = some [] := by
    rw [readDirEntries, resolveFuel_of_nonlink (by omega) hLconfig rfl]
    show (match lookup fsE (iP ++ ["config"]) with
      | some FsNode.dir =>
        some ((childNames fsE (iP ++ ["config"])).filterMap (fun nm =>
          (lookup fsE ((iP ++ ["config"]) ++ [nm])).map (fun n => (nm, n))))
      | _ => none) = some []
    rw [hLconfig, childNames, hchNil "config"]
    rfl
  have hresSaves : readDirEntries fsE (iP ++ ["saves"]) = some [] := by
    rw [readDirEntries, resolveFuel_of_nonlink (by omega) hLsaves rfl]
    show (match lookup fsE (iP ++ ["saves"]) with
      | some FsNode.dir =>
        some ((childNames fsE (iP ++ ["saves"])).filterMap (fun nm =>
          (lookup fsE ((iP ++ ["saves"]) ++ [nm])).map (fun n => (nm, n))))
      | _ => none) = some []
    rw [hLsaves, childNames, hchNil "saves"]
    rfl
  have hcJar : countJarFiles fsE (iP ++ ["mods"]) = 0 := by
    rw [countJarFiles, hresMods]
    rfl
  have hcConf : countFiles fsE (iP ++ ["config"]) = 0 := by
    rw [countFiles, hresConfig]
    rfl
  have hcSave : countDirectories fsE (iP ++ ["saves"]) = 0 := by
    rw [countDirectories, hresSaves]
    rfl
  have hneRoot : ¬ statRes fsE m.InstancesPath = .notExist := by
    rw [statRes_of_lookup_dir hLroot]
    exact fun hc => StatR.noConfusion hc
  have hrdE : readDirEntries fsE m.InstancesPath =
      some ((childNames fsE m.InstancesPath).filterMap (fun nm =>
        (lookup fsE (m.InstancesPath ++ [nm])).map (fun n => (nm, n)))) := by
    rw [readDirEntries, resolveFuel_of_nonlink (by omega) hLroot rfl]
    show (match lookup fsE m.InstancesPath with
      | some FsNode.dir =>
        some ((childNames fsE m.InstancesPath).filterMap (fun nm =>
          (lookup fsE (m.InstancesPath ++ [nm])).map (fun n => (nm, n))))
      | _ => none) = _
    rw [hLroot]
  have hLI : m.ListInstances fsE = .ok (sortInstances
      (((childNames fsE m.InstancesPath).filterMap (fun nm =>
        (lookup fsE (m.InstancesPath ++ [nm])).map (fun n => (nm, n)))).filterMap
        (fun e => if e.2.isDir then
          some { Name := e.1
                 Path := m.InstancesPath ++ [e.1]
                 ModCount := countJarFiles fsE (m.InstancesPath ++ [e.1] ++ ["mods"])
                 ConfigCount := countFiles fsE (m.InstancesPath ++ [e.1] ++ ["config"])
                 SaveCount := countDirectories fsE (m.InstancesPath ++ [e.1] ++ ["saves"])
                 IsActive := decide (e.1 = m.GetActiveInstance fsE) }
        else none))) := by
    unfold Manager.ListInstances
    rw [if_neg hneRoot, hrdE]
  have hfpf : ∀ nm e, (fun nm =>
      (lookup fsE (m.InstancesPath ++ [nm])).map (fun n => (nm, n))) nm = some e →
      e.1 = nm := by
    intro nm e he
    dsimp only at he
    cases hl : lookup fsE (m.InstancesPath ++ [nm]) with
    | none => rw [hl] at he; exact Option.noConfusion he
    | some n =>
      rw [hl] at he
      cases Option.some.inj he
      rfl
  have hgpf : ∀ (e : String × FsNode) (i : Instance),
      (fun (e : String × FsNode) => if e.2.isDir then
      some { Name := e.1
             Path := m.InstancesPath ++ [e.1]
             ModCount := countJarFiles fsE (m.InstancesPath ++ [e.1] ++ ["mods"])
             ConfigCount := countFiles fsE (m.InstancesPath ++ [e.1] ++ ["config"])
             SaveCount := countDirectories fsE (m.InstancesPath ++ [e.1] ++ ["saves"])
             IsActive := decide (e.1 = m.GetActiveInstance fsE) } else none) e = some i →
      i.Name = e.1 := by
    intro e i he
    dsimp only at he
    by_cases hd0 : e.2.isDir = true
    · rw [if_pos hd0] at he
      cases Option.some.inj he
      rfl
    · rw [if_neg hd0] at he
      exact Option.noConfusion he
  have hnamesfil : (childNames fsE m.InstancesPath).filter
      (fun nm => decide (nm = name)) = [name] := by
    rw [childNames, hcrawE]
    have hp := (sortStrs_perm (dedupStrs (name :: childRaw fs m.InstancesPath))).filter
      (fun nm => decide (nm = name))
    rw [filter_dedup_head] at hp
    exact List.perm_singleton.1 hp
  refine ⟨fsE, hcreate, ?_, ?_⟩
  · intro d hd
    simp only [essentialDirs, List.mem_cons, List.not_mem_nil, or_false] at hd
    rcases hd with rfl | rfl | rfl | rfl | rfl
    · exact hLmods
    · exact hLconfig
    · exact hLsaves
    · exact hLresource
    · exact hLshader
  · refine ⟨_, hLI, ?_⟩
    have hXfil : (((childNames fsE m.InstancesPath).filterMap
        (fun (nm : String) =>
          (lookup fsE (m.InstancesPath ++ [nm])).map (fun n => (nm, n)))).filterMap
        (fun (e : String × FsNode) => if e.2.isDir then
          some { Name := e.1
                 Path := m.InstancesPath ++ [e.1]
                 ModCount := countJarFiles fsE (m.InstancesPath ++ [e.1] ++ ["mods"])
                 ConfigCount := countFiles fsE (m.InstancesPath ++ [e.1] ++ ["config"])
                 SaveCount := countDirectories fsE (m.InstancesPath ++ [e.1] ++ ["saves"])
                 IsActive := decide (e.1 = m.GetActiveInstance fsE) }
        else none)).filter (fun i => decide (i.Name = name)) =
        [({ Name := name, Path := iP, ModCount := 0,
            ConfigCount := 0, SaveCount := 0, IsActive := false } : Instance)] := by
      have hfname : (lookup fsE (m.InstancesPath ++ [name])).map
          (fun n => (name, n)) = some (name, FsNode.dir) := by
        rw [← hiPdef, hLiP]
        rfl
      rw [filter_name_through _ _ name hfpf hgpf, hnamesfil]
      simp only [List.filterMap_cons, List.filterMap_nil, hfname, FsNode.isDir,
        if_true]
      rw [← hiPdef, hcJar, hcConf, hcSave, hgaE, decide_eq_false hdef]
    exact sortInstances_filter_singleton _ _ _ hXfil

/-- Closed witness for the amended C4 at a concrete manager and filesystem. -/
theorem C4_witness :
    ∃ fs', (Manager.mk ["i"] ["mc"] ["b"]).CreateInstance "a"
        [(["i"], FsNode.dir)] = (fs', .ok ()) ∧
      (∀ d ∈ essentialDirs,
        lookup fs' (["i", "a"] ++ [d]) = some FsNode.dir) ∧
      ∃ l, (Manager.mk ["i"] ["mc"] ["b"]).ListInstances fs' = .ok l ∧
        l.filter (fun i => decide (i.Name = "a")) =
          [{ Name := "a", Path := ["i", "a"], ModCount := 0,
             ConfigCount := 0, SaveCount := 0, IsActive := false }] :=
  C4_create_list_amended ⟨["i"], ["mc"], ["b"]⟩ "a" [(["i"], FsNode.dir)]
    (by decide) (by decide) (by decide) (by decide) (by decide) (by decide)

end MCIS
